import Mathlib

/-!
# Contacts-app import/export pipeline: verification of the spec's claims

Shallow embedding of the phone-normalization, duplicate-detection,
bulk-import and export logic of the contacts application.  Strings are
embedded as Lean `String`s and manipulated through their underlying
character lists; JavaScript `null`/`undefined` arguments are embedded as
`Option` values; the device contact store, the permission checks and the
shared cancellation flag are embedded as explicit oracles (`Env`) that
the import engine consumes index by index.
-/

/- ## Generic character-list helpers (JS string primitives) -/

/-- Whitespace test backing the model of `String.prototype.trim`. -/
def jsIsWs (c : Char) : Bool := c.isWhitespace

/-- Trim leading and trailing whitespace from a character list. -/
def trimChars (l : List Char) : List Char :=
  ((l.dropWhile jsIsWs).reverse.dropWhile jsIsWs).reverse

/-- Model of JS `String.prototype.trim`. -/
def jsTrim (s : String) : String := String.mk (trimChars s.data)

/-- `leadsWith pat l`: does `l` start with the pattern `pat`?
(Model of JS `String.prototype.startsWith`.) -/
def leadsWith : List Char → List Char → Bool
  | [], _ => true
  | _ :: _, [] => false
  | p :: ps, c :: cs => p == c && leadsWith ps cs

/-- The last `n` elements of a list; the whole list when it is shorter.
(Model of JS `String.prototype.slice(-n)`.) -/
def lastChars (l : List Char) (n : Nat) : List Char := l.drop (l.length - n)

/-- Keep the decimal digits of a character list, in order.
(Model of `str.match(/\d/g).join('')` and of `str.replace(/\D/g, '')`.) -/
def digitsOf (l : List Char) : List Char := l.filter Char.isDigit

/-- Model of JS `/[a-zA-Z]/.test(s)`. -/
def jsHasLetter (s : String) : Bool := s.data.any Char.isAlpha

/-- Model of JS `/^0+$/.test(s)`: non-empty and all zeros. -/
def allZerosB (l : List Char) : Bool := !l.isEmpty && l.all (· == '0')

/- ## Phone utilities (src/utils/phoneUtils.ts) -/

/-- `PHONE_MIN_DIGITS` from src/constants. -/
def PHONE_MIN_DIGITS : Nat := 10

/-- `PHONE_MAX_DIGITS` from src/constants. -/
def PHONE_MAX_DIGITS : Nat := 15

/-- Model of `normalizePhone`: trim, remember a leading `+`, keep only the
digits, strip a `00` international prefix from a no-plus string longer
than 12 digits, and re-attach the `+`.  `none` embeds JS `null`/`undefined`. -/
def normalizePhone (raw : Option String) : String :=
  match raw with
  | none => ""
  | some rawStr =>
    let cleaned := trimChars rawStr.data
    if cleaned.isEmpty then "" else
    let hasPlus := leadsWith ['+'] cleaned
    let ds := digitsOf cleaned
    if ds.isEmpty then "" else
    let ds2 := if !hasPlus && leadsWith ['0', '0'] ds && decide (ds.length > 12)
               then ds.drop 2 else ds
    if hasPlus then String.mk ('+' :: ds2) else String.mk ds2

/-- Result record of `validatePhone`. -/
structure PhoneValidation where
  valid : Bool
  reason : Option String
deriving DecidableEq, Repr

/-- The "too short" reason string built by `validatePhone`. -/
def tooShortReason (n : Nat) : String :=
  "Phone must have at least " ++ toString PHONE_MIN_DIGITS ++ " digits (has "
    ++ toString n ++ ")"

/-- The "too long" reason string built by `validatePhone`. -/
def tooLongReason (n : Nat) : String :=
  "Phone must have at most " ++ toString PHONE_MAX_DIGITS ++ " digits (has "
    ++ toString n ++ ")"

/-- Model of `validatePhone`: reject empty input, letters, digit-free
input, digit counts outside `[PHONE_MIN_DIGITS, PHONE_MAX_DIGITS]`, and
all-zero digit strings, in that order. -/
def validatePhone (phone : Option String) : PhoneValidation :=
  match phone with
  | none => ⟨false, some ("Phone number is required")⟩
  | some raw =>
    if raw = "" then ⟨false, some ("Phone number is required")⟩
    else if jsHasLetter raw then ⟨false, some ("Phone number contains letters")⟩
    else
      let normalized := normalizePhone (some raw)
      if normalized = "" then ⟨false, some ("Phone number contains no digits")⟩
      else
        let digitCount := (digitsOf normalized.data).length
        if digitCount < PHONE_MIN_DIGITS then ⟨false, some (tooShortReason digitCount)⟩
        else if digitCount > PHONE_MAX_DIGITS then ⟨false, some (tooLongReason digitCount)⟩
        else if allZerosB (digitsOf normalized.data) then
          ⟨false, some ("Phone number cannot be all zeros")⟩
        else ⟨true, none⟩

/-- Model of `applyCountryCode`: keep `+`-prefixed numbers, prepend the
country code to 10-digit numbers, otherwise prepend `+` (the source's
country-code-detection branch and its fallback both return `+digits`). -/
def applyCountryCode (phone : Option String) (countryCode : String) : String :=
  let normalized := normalizePhone phone
  if normalized = "" then "" else
  if leadsWith ['+'] normalized.data then normalized else
  let digits := digitsOf normalized.data
  let codeDigits := digitsOf countryCode.data
  if digits.length = 10 then countryCode ++ String.mk digits
  else if !codeDigits.isEmpty && leadsWith codeDigits digits
          && (digits.drop codeDigits.length).length = 10 then
    String.mk ('+' :: digits)
  else String.mk ('+' :: digits)

/-- Model of `phoneToLookupKey`: the last 10 digits of the normalized
number (the whole digit string when shorter). -/
def phoneToLookupKey (phone : Option String) : String :=
  let normalized := normalizePhone phone
  let digits := digitsOf normalized.data
  if digits.length ≥ 10 then String.mk (lastChars digits 10) else String.mk digits

/-- The digit string of the normalized form of an input: the quantity whose
length `validatePhone` ranges over and whose last 10 characters
`phoneToLookupKey` extracts. -/
def digitsOfNormalized (p : Option String) : List Char :=
  digitsOf (normalizePhone p).data

/- ## Column mapper (src/utils/fileParser.ts) -/

/-- Model of JS `String.prototype.toLowerCase` (ASCII case folding; the
non-ASCII aliases in `HEADER_ALIASES` come from caseless scripts). -/
def jsToLower (s : String) : String := String.mk (s.data.map Char.toLower)

/-- `charsHave needle hay`: does `hay` contain `needle` as a contiguous
run?  (Model of JS `String.prototype.includes`.) -/
def charsHave (needle : List Char) : List Char → Bool
  | [] => needle.isEmpty
  | c :: rest => leadsWith needle (c :: rest) || charsHave needle rest

/-- Model of JS `hay.includes(needle)`. -/
def jsIncludes (hay needle : String) : Bool := charsHave needle.data hay.data

/-- Model of JS `Array.prototype.findIndex`. -/
def jsFindIndex {α : Type} (p : α → Bool) : List α → Option Nat
  | [] => none
  | a :: as => if p a then some 0 else (jsFindIndex p as).map (· + 1)

/-- `HEADER_ALIASES.name` from src/constants. -/
def nameAliases : List String :=
  ["name", "full name", "fullname", "contact name", "contactname",
   "first name", "firstname", "person", "display name",
   "பெயர்", "नाम", "పేరు", "പേര്"]

/-- `HEADER_ALIASES.phone` from src/constants. -/
def phoneAliases : List String :=
  ["phone", "phone number", "phonenumber", "mobile", "mobile number",
   "cell", "cell phone", "telephone", "tel", "number",
   "contact number", "phone no", "mobile no", "ph no",
   "தொலைபேசி", "फोन", "मोबाइल", "ఫోన్", "ഫോൺ"]

/-- `HEADER_ALIASES.email` from src/constants. -/
def emailAliases : List String :=
  ["email", "e-mail", "email address", "emailaddress", "mail",
   "மின்னஞ்சல்", "ईमेल", "ఇమెయిల్", "ഇമെയിൽ"]

/-- `HEADER_ALIASES.company` from src/constants. -/
def companyAliases : List String :=
  ["company", "organization", "organisation", "org", "firm",
   "business", "நிறுவனம்", "कंपनी", "కంపెనీ", "കമ്പനി"]

/-- `HEADER_ALIASES.notes` from src/constants. -/
def notesAliases : List String :=
  ["notes", "note", "comment", "comments", "description", "remarks",
   "குறிப்புகள்", "टिप्पणी", "గమనికలు", "കുറിപ്పുകൾ"]

/-- The `ColumnMapping` record; `none` embeds the JS `null` "unmapped". -/
structure ColumnMapping where
  name : Option String
  phone : Option String
  email : Option String
  company : Option String
  notes : Option String
deriving DecidableEq, Repr

/-- The alias-match predicate of `autoDetectColumns`:
`h === alias || h.includes(alias) || alias.includes(h)` on a
lower-cased, trimmed header `h`. -/
def headerAliasMatch (h a : String) : Bool :=
  h == a || jsIncludes h a || jsIncludes a h

/-- One field of `autoDetectColumns`: walk the alias list in priority
order, return the original header at the first index whose normalized
form matches.  (In the source the `mapping[field] === null` guard is
always true at this point because the loop breaks right after the first
assignment to the field.) -/
def detectFieldHeader (normalizedHeaders headers : List String) :
    List String → Option String
  | [] => none
  | a :: rest =>
    match jsFindIndex (fun h => headerAliasMatch h a) normalizedHeaders with
    | some idx => some (headers.getD idx (""))
    | none => detectFieldHeader normalizedHeaders headers rest

/-- Model of `autoDetectColumns`: each semantic field is detected
independently from the same normalized header list (the source's loop
over `Object.entries(HEADER_ALIASES)` touches a distinct `mapping` field
per entry and never reads another field). -/
def autoDetectColumns (headers : List String) : ColumnMapping :=
  let normalizedHeaders := headers.map (fun h => jsTrim (jsToLower h))
  { name := detectFieldHeader normalizedHeaders headers nameAliases,
    phone := detectFieldHeader normalizedHeaders headers phoneAliases,
    email := detectFieldHeader normalizedHeaders headers emailAliases,
    company := detectFieldHeader normalizedHeaders headers companyAliases,
    notes := detectFieldHeader normalizedHeaders headers notesAliases }

/- ## Contact rows and duplicate detection (src/services/contactsService.ts) -/

/-- The `DuplicateAction` union type. -/
inductive DuplicateAction where
  | skip
  | update
  | force_add
deriving DecidableEq, Repr

/-- The `ContactRow` record.  Optional JS fields are embedded as `Option`. -/
structure ContactRow where
  id : String
  name : String
  phone : String
  email : Option String
  company : Option String
  notes : Option String
  isValid : Bool
  validationErrors : List String
  isDuplicate : Bool
  duplicateAction : DuplicateAction
  existingContactId : Option String
  selected : Bool
deriving DecidableEq, Repr

/-- The `PhoneContact` record (device contact snapshot). -/
structure PhoneContact where
  id : String
  name : String
  phones : List String
  normalizedPhones : List String
  emails : List String
  company : Option String
deriving DecidableEq, Repr

/-- First-match lookup in an association list (model of `Map.get` for a
map built by first-wins insertion). -/
def assocFind (m : List (String × PhoneContact)) (k : String) : Option PhoneContact :=
  (m.find? (fun e => e.1 == k)).map (fun e => e.2)

/-- Model of `buildPhoneLookupMap`: one entry per distinct nonempty
normalized phone; the first contact encountered wins. -/
def buildPhoneLookupMap (contacts : List PhoneContact) : List (String × PhoneContact) :=
  contacts.foldl
    (fun m contact =>
      contact.normalizedPhones.foldl
        (fun m phone =>
          if phone ≠ "" ∧ assocFind m phone = none then m ++ [(phone, contact)] else m)
        m)
    []

/-- The `DuplicateCheckResult` record. -/
structure DuplicateCheckResult where
  newContacts : List ContactRow
  duplicates : List ContactRow
  totalExisting : Nat
deriving DecidableEq, Repr

/-- The lookup key `checkDuplicates` computes for a candidate row. -/
def rowKey (row : ContactRow) : String := phoneToLookupKey (some row.phone)

/-- The row-classification loop of `checkDuplicates`, with the
within-batch `Set` of already-seen keys made explicit.  Returns the
`(newContacts, duplicates)` pair in input order. -/
def checkDupGo (m : List (String × PhoneContact)) (da : DuplicateAction) :
    List ContactRow → List String → List ContactRow × List ContactRow
  | [], _ => ([], [])
  | row :: rest, seen =>
    if row.isValid = false then checkDupGo m da rest seen
    else
      let lookupKey := rowKey row
      let existing := assocFind m lookupKey
      if lookupKey ∈ seen then
        let r := checkDupGo m da rest seen
        (r.1, { row with
                isDuplicate := true,
                duplicateAction := da,
                existingContactId := existing.map (fun e => e.id) } :: r.2)
      else
        match existing with
        | some e =>
          let r := checkDupGo m da rest (lookupKey :: seen)
          (r.1, { row with
                  isDuplicate := true,
                  duplicateAction := da,
                  existingContactId := some (e.id) } :: r.2)
        | none =>
          let r := checkDupGo m da rest (lookupKey :: seen)
          ({ row with isDuplicate := false } :: r.1, r.2)

/-- Model of `checkDuplicates`. -/
def checkDuplicates (rows : List ContactRow) (existingContacts : List PhoneContact)
    (defaultAction : DuplicateAction := DuplicateAction.skip) : DuplicateCheckResult :=
  let r := checkDupGo (buildPhoneLookupMap existingContacts) defaultAction rows []
  ⟨r.1, r.2, existingContacts.length⟩

/-- Valid row carrying lookup key `k` (the rows claim C2 counts). -/
def validWithKey (k : String) (row : ContactRow) : Bool :=
  row.isValid && (rowKey row == k)

/- ## Export encoder (src/services/exportService.ts) -/

/-- Model of the regex `/^\d+\.?\d*[eE][+\-]?\d+$/` used by `safePhone`. -/
def isSciNotation (s : String) : Bool :=
  let p1 := s.data.span Char.isDigit
  if p1.1.isEmpty then false else
  let r2 := if p1.2.head? = some '.' then p1.2.tail else p1.2
  let p2 := r2.span Char.isDigit
  match p2.2 with
  | [] => false
  | e :: rest =>
    if e == 'e' || e == 'E' then
      let rest2 := if rest.head? = some '+' || rest.head? = some '-'
                   then rest.tail else rest
      let p3 := rest2.span Char.isDigit
      !p3.1.isEmpty && p3.2.isEmpty
    else false

/-- Numeric value of a digit string. -/
def digitsToNat (l : List Char) : Nat :=
  l.foldl (fun acc c => acc * 10 + (c.toNat - ('0').toNat)) 0

/-- Models `parseFloat(str).toFixed(0)` for a string matching the
scientific-notation pattern, by exact decimal arithmetic with
round-half-up (binary float64 artifacts of the JS runtime, including the
overflow-to-Infinity guard, are not modelled; the claims never reach this
branch). -/
def sciConvert (s : String) : String :=
  let p1 := s.data.span Char.isDigit
  let hasDot := p1.2.head? = some '.'
  let p2 := if hasDot then p1.2.tail.span Char.isDigit else ([], p1.2)
  match p2.2 with
  | [] => s
  | _ :: rest =>
    let neg := rest.head? = some '-'
    let rest2 := if rest.head? = some '+' || rest.head? = some '-'
                 then rest.tail else rest
    let e := digitsToNat (rest2.takeWhile Char.isDigit)
    let mant := digitsToNat (p1.1 ++ p2.1)
    let scale := p2.1.length
    if neg then
      let k := scale + e
      let q := mant / 10 ^ k
      let r := mant % 10 ^ k
      toString (if 10 ^ k ≤ 2 * r then q + 1 else q)
    else if e ≥ scale then toString (mant * 10 ^ (e - scale))
    else
      let k := scale - e
      let q := mant / 10 ^ k
      let r := mant % 10 ^ k
      toString (if 10 ^ k ≤ 2 * r then q + 1 else q)

/-- Model of `safePhone` on strings (the `PhoneContact.phones` entries are
typed `string[]`; the numeric branch of the source handles untyped JS
callers): trim, and convert a scientific-notation-shaped string to its
plain digit form. -/
def safePhone (phone : String) : String :=
  let str := jsTrim phone
  if isSciNotation str then sciConvert str else str

/-- Model of JS `Array.prototype.join(sep)`. -/
def joinSep (sep : String) : List String → String
  | [] => ""
  | [x] => x
  | x :: y :: xs => x ++ sep ++ joinSep sep (y :: xs)

/-- The dedup key of `safeJoinPhones`:
`safe.replace(/\D/g, '').slice(-10)`. -/
def joinPhoneKey (safe : String) : String :=
  String.mk (lastChars (digitsOf safe.data) 10)

/-- One step of the `safeJoinPhones` loop over `(seen, unique)`. -/
def safeJoinStep (acc : List String × List String) (phone : String) :
    List String × List String :=
  let safe := safePhone phone
  if safe = "" then acc
  else
    let key := joinPhoneKey safe
    if key ≠ "" ∧ key ∈ acc.1 then acc
    else if key ≠ "" then (key :: acc.1, acc.2 ++ [safe])
    else (acc.1, acc.2 ++ [safe])

/-- Model of `safeJoinPhones`: join the safe phone strings with `"; "`,
keeping only the first representative of each last-10-digit key. -/
def safeJoinPhones (phones : List String) : String :=
  joinSep ("; ") ((phones.foldl safeJoinStep ([], [])).2)

/-- Double every `"` (model of `value.replace(/"/g, '""')`). -/
def doubleQuotesChars (l : List Char) : List Char :=
  l.flatMap (fun c => if c == '"' then ['"', '"'] else [c])

/-- Model of `escapeCSV`. -/
def escapeCSV (value : String) : String :=
  if value.data.contains ',' || value.data.contains '"' || value.data.contains '\n'
  then String.mk ('"' :: (doubleQuotesChars value.data ++ ['"']))
  else value

/-- The formula-literal phone cell of `exportToCSV`:
`` `"=""${phone.replace(/"/g, '""')}"""` ``. -/
def csvPhoneCell (phone : String) : String :=
  ("\"=\"\"") ++ String.mk (doubleQuotesChars phone.data) ++ ("\"\"\"")

/-- One CSV data row of `exportToCSV` (the `catch` branch of the source is
unreachable in this typed model: every field access is total). -/
def exportToCSVRow (c : PhoneContact) : String :=
  joinSep (",")
    [escapeCSV c.name,
     csvPhoneCell (safeJoinPhones c.phones),
     escapeCSV (joinSep ("; ") c.emails),
     escapeCSV (c.company.getD (""))]

/-- The CSV text written by `exportToCSV`:
`[header, ...rows].join('\n')`. -/
def exportToCSVText (contacts : List PhoneContact) : String :=
  joinSep ("\n") (("Name,Phone,Email,Company") :: contacts.map exportToCSVRow)

/-- The value of the Phone cell `exportToXLSX` stores for a contact: the
`Phone` field of the data row handed to the sheet builder, which the
export loop then forces to cell type `'s'` (text) with `cell.v =
String(cell.v)`, so the stored cell value is exactly this string (the
xlsx library internals are an external collaborator). -/
def xlsxPhoneCell (c : PhoneContact) : String := safeJoinPhones c.phones

/-- The per-phone dedup key of `deduplicateContacts` (last 10 digits when
at least 10, else the whole digit string — written as in the source). -/
def exportPhoneKey (p : String) : String :=
  let digits := digitsOf (safePhone p).data
  if digits.length ≥ 10 then String.mk (lastChars digits 10) else String.mk digits

/-- `contact.phones.map(...).filter(Boolean)`: the nonempty lookup keys of
a contact, in phone order. -/
def keyListOf (c : PhoneContact) : List String :=
  (c.phones.map exportPhoneKey).filter (fun k => k ≠ (""))

/-- Truthiness of an optional JS string (`undefined`/`''` are falsy). -/
def optStrTruthy : Option String → Bool
  | none => false
  | some s => s != ("")

/-- First-match lookup in the `seen` map of `deduplicateContacts`
(entries are prepended, so the most recent `Map.set` wins). -/
def idxFind (m : List (String × Nat)) (k : String) : Option Nat :=
  (m.find? (fun e => e.1 == k)).map (fun e => e.2)

/-- In-place update of the record at an index (model of mutating the
contact object shared by `result` and `seen`). -/
def modifyIdx {α : Type} : List α → Nat → (α → α) → List α
  | [], _, _ => []
  | x :: xs, 0, f => f x :: xs
  | x :: xs, n + 1, f => x :: modifyIdx xs n f

/-- The merge branch of `deduplicateContacts`: extend the surviving
record's phones with new-keyed phones, append emails whose lowercase form
is absent from the (pre-computed, not updated) lowercase set of the
record's emails, and backfill the company only when previously falsy. -/
def mergeInto (rec : PhoneContact) (c : PhoneContact) : PhoneContact :=
  let merged := c.phones.foldl
    (fun (acc : List String × List String) phone =>
      let pk := exportPhoneKey phone
      if pk ≠ ("") ∧ ¬ pk ∈ acc.2 then (acc.1 ++ [phone], pk :: acc.2) else acc)
    (rec.phones, (rec.phones.map exportPhoneKey).filter (fun k => k ≠ ("")))
  let lowSet := rec.emails.map jsToLower
  { rec with
    phones := merged.1,
    emails := rec.emails
      ++ c.emails.filter (fun e2 => e2 != ("") && !(lowSet.contains (jsToLower e2))),
    company := if !(optStrTruthy rec.company) && optStrTruthy c.company
               then c.company else rec.company }

/-- The copy branch of `deduplicateContacts`: deduplicate the contact's
own phones by key before inserting the deep copy. -/
def dedupPhonesCopy (phones : List String) : List String :=
  (phones.foldl
    (fun (acc : List String × List String) phone =>
      let pk := exportPhoneKey phone
      if pk ≠ ("") ∧ pk ∈ acc.1 then acc
      else if pk ≠ ("") then (pk :: acc.1, acc.2 ++ [phone])
      else (acc.1, acc.2 ++ [phone]))
    ([], [])).2

/-- The main loop of `deduplicateContacts` over `(records, seen)`. -/
def dedupGo : List PhoneContact → List PhoneContact → List (String × Nat) →
    List PhoneContact
  | [], records, _ => records
  | c :: rest, records, seen =>
    let keys := keyListOf c
    match keys.findSome? (fun k => idxFind seen k) with
    | some idx => dedupGo rest (modifyIdx records idx (fun rec => mergeInto rec c)) seen
    | none =>
      let copy := { c with phones := dedupPhonesCopy c.phones, emails := c.emails }
      dedupGo rest (records ++ [copy]) (keys.map (fun k => (k, records.length)) ++ seen)

/-- Model of `deduplicateContacts`. -/
def deduplicateContacts (contacts : List PhoneContact) : List PhoneContact :=
  dedupGo contacts [] []

/-- `needle` occurs contiguously inside `hay`. -/
def strHasRun (hay needle : String) : Prop :=
  ∃ pre post : List Char, hay.data = pre ++ needle.data ++ post

/- ## Bulk import engine (src/services/contactsService.ts) -/

/-- `MAX_RETRIES` from contactsService. -/
def MAX_RETRIES : Nat := 2

/-- `DEFAULT_BATCH_SIZE` from src/constants. -/
def DEFAULT_BATCH_SIZE : Nat := 100

/-- The `ImportError` record (`rowIndex` is `-1` in the pre-flight
permission failure). -/
structure ImportError where
  rowIndex : Int
  contactName : String
  phone : String
  errorMessage : String
deriving DecidableEq, Repr

/-- The `ImportProgress` record. -/
structure ImportProgress where
  total : Nat
  processed : Nat
  successful : Nat
  failed : Nat
  skipped : Nat
  updated : Nat
  isRunning : Bool
  isCancelled : Bool
  currentBatch : Nat
  totalBatches : Nat
  errors : List ImportError
deriving DecidableEq, Repr

/-- The external world the engine interacts with, as index-consumed
oracles: `perm i` is the result of the `i`-th permission check, `cancel i`
the value the shared mutable cancellation flag shows at its `i`-th poll
(a flag that is set once and never cleared is a monotone stream), and
`write i` the outcome of the `i`-th device write attempt (`.ok id`
carries the new contact id — ignored by update writes — and `.error msg`
the thrown message). -/
structure Env where
  perm : Nat → Bool
  cancel : Nat → Bool
  write : Nat → Except String String

/-- The engine's state: the mutable `progress` record, the accumulators
of `bulkImportContacts`, the oracle cursors, and the chronological
(most-recent-first) list of snapshots passed to `onProgress`.  `obs` is
ghost instrumentation only: it freezes a copy of `progress` (plus whether
the check was a batch-boundary one) the first time a cancellation poll
reads `true`; no source behaviour depends on it. -/
structure ImportState where
  progress : ImportProgress
  addedContactIds : List String
  phonesAddedInSession : List String
  emissions : List ImportProgress
  permIdx : Nat
  cancelIdx : Nat
  writeIdx : Nat
  obs : Option (ImportProgress × Bool)
deriving DecidableEq, Repr

/-- Model of `onProgress?.({ ...progress })`: snapshot the progress. -/
def emitP (s : ImportState) : ImportState :=
  { s with emissions := s.progress :: s.emissions }

/-- Model of a `checkContactsPermission` call. -/
def checkPermM (env : Env) (s : ImportState) : Bool × ImportState :=
  (env.perm s.permIdx, { s with permIdx := s.permIdx + 1 })

/-- Model of reading `cancelToken?.cancelled`; `atTop` marks the
batch-boundary check (recorded in the ghost `obs` only). -/
def pollCancel (env : Env) (atTop : Bool) (s : ImportState) : Bool × ImportState :=
  let v := env.cancel s.cancelIdx
  let s2 := { s with cancelIdx := s.cancelIdx + 1 }
  (v, if v && s2.obs.isNone then { s2 with obs := some (s2.progress, atTop) } else s2)

/-- The retry loop shared by `addContactToDevice` and
`updateContactOnDevice`: up to `fuel` attempts, each consuming one write
outcome; first success wins, otherwise the last error is thrown. -/
def writeWithRetry (env : Env) : Nat → Nat → String → Except String String × Nat
  | idx, 0, last => (Except.error last, idx)
  | idx, Nat.succ f, _last =>
    match env.write idx with
    | Except.ok id => (Except.ok id, idx + 1)
    | Except.error e => writeWithRetry env (idx + 1) f e

/-- Model of `addContactToDevice` (`MAX_RETRIES + 1` attempts; the
payload built by `buildContactPayload` does not influence the outcome
oracle). -/
def addContactToDevice (env : Env) (s : ImportState) :
    Except String String × ImportState :=
  let r := writeWithRetry env s.writeIdx (MAX_RETRIES + 1)
    ("Failed to add contact after retries")
  (r.1, { s with writeIdx := r.2 })

/-- Model of `updateContactOnDevice`. -/
def updateContactOnDevice (env : Env) (s : ImportState) :
    Except String Unit × ImportState :=
  let r := writeWithRetry env s.writeIdx (MAX_RETRIES + 1)
    ("Failed to update contact after retries")
  (r.1.map (fun _ => ()), { s with writeIdx := r.2 })

/-- Model of `preValidateRow` (JS `!row.name || !row.name.trim()`). -/
def preValidateRow (row : ContactRow) : Option String :=
  if row.name = "" ∨ jsTrim row.name = "" then some ("Contact name is empty")
  else if row.phone = "" then some ("Phone number is empty")
  else
    match validatePhone (some row.phone) with
    | ⟨true, _⟩ => none
    | ⟨false, reason⟩ => some (reason.getD ("Invalid phone number"))

/-- `progress.failed++` plus the `errors.push` of the `catch`/pre-validate
paths. -/
def recordFailure (row : ContactRow) (errIdx : Int) (msg : String)
    (s : ImportState) : ImportState :=
  { s with progress := { s.progress with
      failed := s.progress.failed + 1,
      errors := s.progress.errors
        ++ [⟨errIdx, (if row.name = "" then ("Unknown") else row.name),
             row.phone, msg⟩] } }

/-- `progress.skipped++`. -/
def incSkipped (s : ImportState) : ImportState :=
  { s with progress := { s.progress with skipped := s.progress.skipped + 1 } }

/-- The add-write path shared by the `force_add` branch and the plain-add
branch: on success record the id, remember the session key, bump
`successful`; on exhausted retries record the failure. -/
def doAdd (env : Env) (row : ContactRow) (errIdx : Int) (countryCode : String)
    (s : ImportState) : ImportState :=
  let _payload := applyCountryCode (some row.phone) countryCode
  let r := addContactToDevice env s
  match r.1 with
  | Except.ok newId =>
    { r.2 with
      addedContactIds := r.2.addedContactIds ++ [newId],
      phonesAddedInSession :=
        phoneToLookupKey (some row.phone) :: r.2.phonesAddedInSession,
      progress := { r.2.progress with successful := r.2.progress.successful + 1 } }
  | Except.error e => recordFailure row errIdx e r.2

/-- One row of the per-batch loop: the source's `try` branches, followed
by the common tail `progress.processed++` and the per-row emission (the
`catch` contributes through `recordFailure` inside the write paths). -/
def processRow (env : Env) (row : ContactRow) (errIdx : Int) (countryCode : String)
    (s : ImportState) : ImportState :=
  let s :=
    if row.isValid = false then incSkipped s
    else
      match preValidateRow row with
      | some err => recordFailure row errIdx err s
      | none =>
        let lookupKey := phoneToLookupKey (some row.phone)
        if row.isDuplicate then
          match row.duplicateAction with
          | DuplicateAction.skip => incSkipped s
          | DuplicateAction.update =>
            if optStrTruthy row.existingContactId then
              let r := updateContactOnDevice env s
              match r.1 with
              | Except.ok _ =>
                { r.2 with progress :=
                    { r.2.progress with updated := r.2.progress.updated + 1 } }
              | Except.error e => recordFailure row errIdx e r.2
            else incSkipped s
          | DuplicateAction.force_add => doAdd env row errIdx countryCode s
        else if lookupKey ∈ s.phonesAddedInSession then incSkipped s
        else doAdd env row errIdx countryCode s
  emitP { s with progress := { s.progress with processed := s.progress.processed + 1 } }

/-- Model of JS `batch.indexOf(row)` (first value-equal occurrence;
row objects are value records here, and the looked-up row is always a
member, so the JS `-1` case cannot arise). -/
def idxOfRow (row : ContactRow) (batch : List ContactRow) : Nat :=
  batch.indexOf row

/-- The inner `for (const row of batch)` loop: poll the cancellation flag
before each row, stop the whole batch on the first `true` (without
touching any progress field). -/
def processBatch (env : Env) (batch : List ContactRow) (start : Nat)
    (countryCode : String) : List ContactRow → ImportState → ImportState
  | [], s => s
  | row :: rest, s =>
    let c := pollCancel env false s
    if c.1 then c.2
    else processBatch env batch start countryCode rest
      (processRow env row (Int.ofNat (start + idxOfRow row batch)) countryCode c.2)

/-- The outer batch loop of `bulkImportContacts`; `fuel` counts the
remaining iterations (`batchIndex + fuel = totalBatches` throughout, so
`fuel = 0` is the loop exit).  The inter-batch `setTimeout` delay is a
scheduling no-op and is not modelled. -/
def runBatches (env : Env) (rows : List ContactRow) (countryCode : String)
    (batchSize totalBatches : Nat) : Nat → Nat → ImportState → ImportState
  | _, 0, s => s
  | batchIndex, Nat.succ f, s =>
    let c := pollCancel env true s
    if c.1 then
      emitP { c.2 with progress :=
        { c.2.progress with isCancelled := true, isRunning := false } }
    else
      let s := { c.2 with progress :=
        { c.2.progress with currentBatch := batchIndex + 1 } }
      let start := batchIndex * batchSize
      let batch := (rows.drop start).take batchSize
      if batchIndex > 0 ∧ batchIndex % 5 = 0 then
        let p := checkPermM env s
        if p.1 then
          runBatches env rows countryCode batchSize totalBatches (batchIndex + 1) f
            (processBatch env batch start countryCode batch p.2)
        else
          emitP { p.2 with progress := { p.2.progress with
            isRunning := false,
            errors := p.2.progress.errors
              ++ [⟨Int.ofNat start, (""), (""),
                   ("Contacts permission was revoked during import.")⟩] } }
      else
        runBatches env rows countryCode batchSize totalBatches (batchIndex + 1) f
          (processBatch env batch start countryCode batch s)

/-- The pre-flight permission-denied error entry. -/
def permDeniedError : ImportError :=
  ⟨-1, (""), (""), ("Contacts permission not granted. Please enable it in Settings.")⟩

/-- Model of `bulkImportContacts`.  `batchSize ≥ 1` mirrors the source's
meaningful domain: `Math.ceil(n / 0)` makes the JS loop spin forever, so
a zero batch size has no terminating behaviour to embed. -/
def bulkImportContacts (env : Env) (rows : List ContactRow) (countryCode : String)
    (batchSize : Nat := DEFAULT_BATCH_SIZE) : ImportState :=
  let totalBatches := (rows.length + batchSize - 1) / batchSize
  let s0 : ImportState :=
    { progress :=
        { total := rows.length, processed := 0, successful := 0, failed := 0,
          skipped := 0, updated := 0, isRunning := true, isCancelled := false,
          currentBatch := 0, totalBatches := totalBatches, errors := [] },
      addedContactIds := [], phonesAddedInSession := [], emissions := [],
      permIdx := 0, cancelIdx := 0, writeIdx := 0, obs := none }
  let p := checkPermM env s0
  if p.1 = false then
    let s := emitP { p.2 with progress := { p.2.progress with
      isRunning := false,
      errors := p.2.progress.errors ++ [permDeniedError] } }
    emitP { s with progress := { s.progress with
      failed := rows.length, processed := rows.length } }
  else
    let s := runBatches env rows countryCode batchSize totalBatches 0 totalBatches p.2
    emitP { s with progress := { s.progress with isRunning := false } }

/-- The count consistency the spec asserts of every progress snapshot. -/
def consistentP (p : ImportProgress) : Prop :=
  p.processed = p.successful + p.failed + p.skipped + p.updated

/-- Invariant for C1: the live progress and every emitted snapshot are
count-consistent. -/
def allConsistent (s : ImportState) : Prop :=
  consistentP s.progress ∧ ∀ p ∈ s.emissions, consistentP p

/-- Invariant for C10: one recorded contact id per successful add. -/
def idsInv (s : ImportState) : Prop :=
  s.addedContactIds.length = s.progress.successful

/-- What one row step changes and preserves: ghost/oracle bookkeeping and
flags are untouched, `processed` and the counter sum both grow by one, the
id-per-success balance is kept, and exactly the final progress is
emitted. -/
def rowStepOk (s r : ImportState) : Prop :=
  r.obs = s.obs ∧ r.cancelIdx = s.cancelIdx ∧ r.permIdx = s.permIdx
  ∧ r.progress.isCancelled = s.progress.isCancelled
  ∧ r.progress.isRunning = s.progress.isRunning
  ∧ r.progress.currentBatch = s.progress.currentBatch
  ∧ r.progress.totalBatches = s.progress.totalBatches
  ∧ r.progress.total = s.progress.total
  ∧ r.progress.processed = s.progress.processed + 1
  ∧ r.progress.successful + r.progress.failed + r.progress.skipped
      + r.progress.updated
      = s.progress.successful + s.progress.failed + s.progress.skipped
        + s.progress.updated + 1
  ∧ r.addedContactIds.length + s.progress.successful
      = s.addedContactIds.length + r.progress.successful
  ∧ r.emissions = r.progress :: s.emissions

/-- The five counters of two progress records agree. -/
def countersEq (p snap : ImportProgress) : Prop :=
  p.processed = snap.processed ∧ p.successful = snap.successful
  ∧ p.failed = snap.failed ∧ p.skipped = snap.skipped ∧ p.updated = snap.updated

/-- A cancellation flag that is only ever set (never cleared): once a
poll reads `true`, every later poll does too. -/
def monotoneCancel (env : Env) : Prop :=
  ∀ i, env.cancel i = true → env.cancel (i + 1) = true

/-- Pre-observation state of the batch loop: nothing observed yet, all
consumed polls read `false`. -/
def caseA (env : Env) (tb : Nat) (s : ImportState) : Prop :=
  s.obs = none ∧ (∀ i, i < s.cancelIdx → env.cancel i = false)
  ∧ s.progress.isCancelled = false ∧ s.progress.totalBatches = tb

/-- Post-observation state after a row-level (non-boundary) observation
in the batch with index `bI`: the ghost snapshot froze the counters, some
consumed poll read `true`, and `isCancelled` is still unset. -/
def caseB (env : Env) (tb bI : Nat) (s : ImportState) : Prop :=
  ∃ snap, s.obs = some (snap, false) ∧ countersEq s.progress snap
  ∧ (∃ i, i < s.cancelIdx ∧ env.cancel i = true)
  ∧ s.progress.isCancelled = false ∧ snap.currentBatch = bI
  ∧ snap.totalBatches = tb ∧ s.progress.totalBatches = tb

/- ## Structural lemmas about the phone normalizer -/

theorem ws_not_digit {c : Char} (h : jsIsWs c = true) : c.isDigit = false := by
  simp only [jsIsWs, Char.isWhitespace] at h
  simp only [Bool.or_eq_true, decide_eq_true_eq] at h
  rcases h with ((h | h) | h) | h <;> subst h <;> decide

theorem digit_not_ws {c : Char} (h : c.isDigit = true) : jsIsWs c = false := by
  cases hw : jsIsWs c
  · rfl
  · rw [ws_not_digit hw] at h; exact absurd h (by simp)

theorem dropWhile_eq_of_all {α : Type} {p : α → Bool} {l : List α}
    (h : ∀ a ∈ l, p a = false) : l.dropWhile p = l := by
  cases l with
  | nil => rfl
  | cons a as => simp [List.dropWhile_cons, h a (by simp)]

theorem trimChars_eq_of_no_ws {l : List Char} (h : ∀ c ∈ l, jsIsWs c = false) :
    trimChars l = l := by
  unfold trimChars
  rw [dropWhile_eq_of_all h,
      dropWhile_eq_of_all (fun c hc => h c (List.mem_reverse.mp hc)),
      List.reverse_reverse]

theorem mem_digitsOf {c : Char} {l : List Char} (h : c ∈ digitsOf l) :
    c.isDigit = true := (List.mem_filter.mp h).2

theorem digitsOf_of_all {l : List Char} (h : ∀ c ∈ l, c.isDigit = true) :
    digitsOf l = l := List.filter_eq_self.mpr h

theorem drop_len_add (t s : List Char) (k : Nat) :
    (t ++ s).drop (t.length + k) = s.drop k := by
  induction t with
  | nil => simp
  | cons a t ih => simp [Nat.succ_add, ih]

/-- `phoneToLookupKey` always equals the last-10-suffix expression: when the
digit string is shorter than 10, `lastChars` already returns it whole. -/
theorem phoneToLookupKey_eq (p : Option String) :
    phoneToLookupKey p = String.mk (lastChars (digitsOf (normalizePhone p).data) 10) := by
  unfold phoneToLookupKey
  by_cases h : (digitsOf (normalizePhone p).data).length ≥ 10
  · simp [h]
  · have h0 : (digitsOf (normalizePhone p).data).length - 10 = 0 := by omega
    simp [h, lastChars, h0]

/-- Every output of `normalizePhone` is empty, or a nonempty all-digit string
optionally led by `'+'`. -/
theorem normalizePhone_shape (s : String) :
    normalizePhone (some s) = "" ∨
    ∃ ds : List Char, ds ≠ [] ∧ (∀ c ∈ ds, c.isDigit = true) ∧
      (normalizePhone (some s) = String.mk ('+' :: ds) ∨
       normalizePhone (some s) = String.mk ds) := by
  unfold normalizePhone
  by_cases h1 : (trimChars s.data).isEmpty
  · left; simp [h1]
  · by_cases h2 : (digitsOf (trimChars s.data)).isEmpty
    · left; simp [h1, h2]
    · right
      refine ⟨if !leadsWith ['+'] (trimChars s.data)
                && leadsWith ['0', '0'] (digitsOf (trimChars s.data))
                && decide ((digitsOf (trimChars s.data)).length > 12)
              then (digitsOf (trimChars s.data)).drop 2
              else digitsOf (trimChars s.data), ?_, ?_, ?_⟩
      · split
        · rename_i hc
          simp only [Bool.and_eq_true, decide_eq_true_eq] at hc
          have h3 : (digitsOf (trimChars s.data)).length > 12 := hc.2
          intro hnil
          have := congrArg List.length hnil
          simp [List.length_drop] at this
          omega
        · simpa [List.isEmpty_iff] using h2
      · intro c hc
        split at hc
        · exact mem_digitsOf (List.mem_of_mem_drop hc)
        · exact mem_digitsOf hc
      · by_cases hp : leadsWith ['+'] (trimChars s.data)
        · left; simp [h1, h2, hp]
        · right; simp [h1, h2, hp]

theorem leadsWith_plus_of_digit {ds : List Char} (hne : ds ≠ [])
    (hd : ∀ c ∈ ds, c.isDigit = true) : leadsWith ['+'] ds = false := by
  cases ds with
  | nil => exact absurd rfl hne
  | cons c cs =>
    have hc : c.isDigit = true := hd c (by simp)
    simp only [leadsWith, Bool.and_eq_false_iff]
    left
    cases hb : ('+' == c)
    · rfl
    · rw [beq_iff_eq] at hb
      subst hb
      exact absurd hc (by decide)

theorem no_ws_of_digits {ds : List Char} (hd : ∀ c ∈ ds, c.isDigit = true) :
    ∀ c ∈ ds, jsIsWs c = false := fun c hc => digit_not_ws (hd c hc)

/-- Re-normalizing a `+`-prefixed normalizer output returns it unchanged. -/
theorem renorm_plus {ds : List Char} (hne : ds ≠ [])
    (hd : ∀ c ∈ ds, c.isDigit = true) :
    normalizePhone (some (String.mk ('+' :: ds))) = String.mk ('+' :: ds) := by
  have htr : trimChars ('+' :: ds) = '+' :: ds := by
    refine trimChars_eq_of_no_ws ?_
    intro c hc
    rcases List.mem_cons.mp hc with h | h
    · subst h; decide
    · exact digit_not_ws (hd c h)
  have hdig : digitsOf ('+' :: ds) = ds := by
    unfold digitsOf
    rw [List.filter_cons]
    simp only [show ('+').isDigit = false from rfl, Bool.false_eq_true, if_false]
    exact digitsOf_of_all hd
  unfold normalizePhone
  simp only [htr, hdig]
  have hplus : leadsWith ['+'] ('+' :: ds) = true := by
    simp [leadsWith]
  simp [List.isEmpty_iff, hne, hplus]

/-- Re-normalizing a plain digit-string normalizer output only (possibly)
re-applies the `00`-strip. -/
theorem renorm_noplus {ds : List Char} (hne : ds ≠ [])
    (hd : ∀ c ∈ ds, c.isDigit = true) :
    normalizePhone (some (String.mk ds)) =
      String.mk (if leadsWith ['0', '0'] ds && decide (ds.length > 12)
                 then ds.drop 2 else ds) := by
  have htr : trimChars ds = ds := trimChars_eq_of_no_ws (no_ws_of_digits hd)
  have hdig : digitsOf ds = ds := digitsOf_of_all hd
  have hplus : leadsWith ['+'] ds = false := leadsWith_plus_of_digit hne hd
  unfold normalizePhone
  simp [htr, hdig, hplus, List.isEmpty_iff, hne]

theorem lastChars_drop_two {ds : List Char} (h : ds.length > 12) :
    lastChars (ds.drop 2) 10 = lastChars ds 10 := by
  unfold lastChars
  rw [List.drop_drop, List.length_drop]
  congr 1
  omega

/-- The lookup key of a normalizer output equals the lookup key of the
original input. -/
theorem key_of_normalize (s : String) :
    phoneToLookupKey (some (normalizePhone (some s))) = phoneToLookupKey (some s) := by
  rcases normalizePhone_shape s with h | ⟨ds, hne, hd, h | h⟩
  · rw [phoneToLookupKey_eq, phoneToLookupKey_eq, h]
    decide
  · rw [h, phoneToLookupKey_eq, phoneToLookupKey_eq, renorm_plus hne hd, h]
  · rw [h, phoneToLookupKey_eq, phoneToLookupKey_eq, renorm_noplus hne hd, h]
    cases hc : leadsWith ['0', '0'] ds && decide (ds.length > 12) with
    | false => simp [hc]
    | true =>
      have hlen : ds.length > 12 := by
        simp only [Bool.and_eq_true, decide_eq_true_eq] at hc
        exact hc.2
      have hds : ∀ c ∈ ds.drop 2, c.isDigit = true :=
        fun c hcm => hd c (List.mem_of_mem_drop hcm)
      simp only [hc, if_true]
      show String.mk (lastChars (digitsOf (ds.drop 2)) 10)
         = String.mk (lastChars (digitsOf ds) 10)
      rw [digitsOf_of_all hds, digitsOf_of_all hd, lastChars_drop_two hlen]

/- ## Claim C6: lookup-key invariance -/

/-- **C6** (confirmed).  Lookup keys are invariant under formatting and
country-code differences: (1) normalizing first never changes the lookup
key (`lookupKey (normalize x) = lookupKey x` for every input `x`), and
(2) any two inputs whose normalized digit strings end in the same
subscriber-number suffix of at least 10 digits get the same lookup key. -/
theorem c6_lookup_key_invariance (x : Option String) :
    phoneToLookupKey (some (normalizePhone x)) = phoneToLookupKey x
  ∧ ∀ (y : Option String) (s : List Char), 10 ≤ s.length →
      (∃ t, digitsOf (normalizePhone x).data = t ++ s) →
      (∃ t, digitsOf (normalizePhone y).data = t ++ s) →
      phoneToLookupKey x = phoneToLookupKey y := by
  constructor
  · cases x with
    | none => decide
    | some s => exact key_of_normalize s
  · intro y s hs ⟨tx, hx⟩ ⟨ty, hy⟩
    have key_suffix : ∀ (z : Option String) (t : List Char),
        digitsOf (normalizePhone z).data = t ++ s →
        phoneToLookupKey z = String.mk (lastChars s 10) := by
      intro z t hz
      rw [phoneToLookupKey_eq, hz]
      unfold lastChars
      congr 1
      rw [List.length_append,
          show t.length + s.length - 10 = t.length + (s.length - 10) by omega,
          drop_len_add]
    rw [key_suffix x tx hx, key_suffix y ty hy]

/-- Witness for C6 at concrete inputs: `"+91 98765 43210"` and
`"9876543210"` share the 10-digit subscriber suffix, and normalizing the
former first does not change its key. -/
theorem c6_witness :
    phoneToLookupKey (some (normalizePhone (some ("+91 98765 43210"))))
      = phoneToLookupKey (some ("+91 98765 43210"))
  ∧ phoneToLookupKey (some ("+91 98765 43210"))
      = phoneToLookupKey (some ("9876543210")) :=
  ⟨(c6_lookup_key_invariance (some ("+91 98765 43210"))).1,
   (c6_lookup_key_invariance (some ("+91 98765 43210"))).2
     (some ("9876543210")) ("9876543210").data (by decide)
     ⟨("91").data, by decide⟩ ⟨[], by decide⟩⟩

/- ## Claim C7: characterization of validatePhone -/

/-- **C7** (corrected): the claim's validity characterization is exact, but
its parenthetical "with the offending count named in the reason" fails for
inputs whose normalized digit string is empty (digit count 0, also below
10): there the reason is the count-free "Phone number contains no digits". -/
theorem c7_counterexample :
    (validatePhone (some ("-"))).valid = false
  ∧ (digitsOfNormalized (some ("-"))).length < PHONE_MIN_DIGITS
  ∧ (validatePhone (some ("-"))).reason = some ("Phone number contains no digits")
  ∧ (validatePhone (some ("-"))).reason
      ≠ some (tooShortReason ((digitsOfNormalized (some ("-"))).length)) := by
  decide

/-- **C7** (amended).  `validatePhone` returns invalid exactly on: empty
input (`none` or `""`), inputs containing an ASCII letter, inputs whose
normalized digit string is all zeros, and inputs whose normalized digit
count is below 10 or above 15; every other input is valid.  The offending
count is named in the reason whenever at least one digit is present
(below-10 case) and always in the above-15 case; a digit-free input gets
the count-free reason "Phone number contains no digits" instead. -/
theorem c7_validate_phone_characterization (p : Option String) :
    ((validatePhone p).valid = false ↔
      (p = none ∨ p = some ("") ∨ (∃ s, p = some s ∧ jsHasLetter s = true)
        ∨ allZerosB (digitsOfNormalized p) = true
        ∨ (digitsOfNormalized p).length < PHONE_MIN_DIGITS
        ∨ PHONE_MAX_DIGITS < (digitsOfNormalized p).length))
  ∧ (∀ s, p = some s → jsHasLetter s = false →
      ((1 ≤ (digitsOfNormalized p).length →
          (digitsOfNormalized p).length < PHONE_MIN_DIGITS →
          (validatePhone p).reason
            = some (tooShortReason ((digitsOfNormalized p).length)))
      ∧ (PHONE_MAX_DIGITS < (digitsOfNormalized p).length →
          (validatePhone p).reason
            = some (tooLongReason ((digitsOfNormalized p).length))))) := by
  cases p with
  | none =>
    refine ⟨?_, ?_⟩
    · simp [validatePhone]
    · intro s hs; exact absurd hs (by simp)
  | some raw =>
    by_cases h0 : raw = ""
    · subst h0
      refine ⟨?_, ?_⟩
      · simp [validatePhone]
      · intro s hs hL
        obtain rfl : s = "" := by simpa using hs.symm
        constructor
        · intro h1
          exact absurd h1 (by decide)
        · intro h1
          exact absurd h1 (by decide)
    · by_cases hL : jsHasLetter raw
      · refine ⟨?_, ?_⟩
        · constructor
          · intro _
            exact Or.inr (Or.inr (Or.inl ⟨raw, rfl, hL⟩))
          · intro _
            simp [validatePhone, h0, hL]
        · intro s hs hLf
          obtain rfl : s = raw := by simpa using hs.symm
          exact absurd hL (by simp [hLf])
      · have hLf : jsHasLetter raw = false := by simpa using hL
        by_cases hN : normalizePhone (some raw) = ""
        · have hdig : digitsOfNormalized (some raw) = [] := by
            unfold digitsOfNormalized
            rw [hN]
            rfl
          refine ⟨?_, ?_⟩
          · constructor
            · intro _
              refine Or.inr (Or.inr (Or.inr (Or.inr (Or.inl ?_))))
              rw [hdig]
              decide
            · intro _
              simp [validatePhone, h0, hLf, hN]
          · intro s hs _
            obtain rfl : s = raw := by simpa using hs.symm
            rw [hdig]
            exact ⟨fun h1 => absurd h1 (by decide), fun h1 => absurd h1 (by decide)⟩
        · have hval : validatePhone (some raw) =
              (if (digitsOfNormalized (some raw)).length < PHONE_MIN_DIGITS then
                ⟨false, some (tooShortReason ((digitsOfNormalized (some raw)).length))⟩
              else if (digitsOfNormalized (some raw)).length > PHONE_MAX_DIGITS then
                ⟨false, some (tooLongReason ((digitsOfNormalized (some raw)).length))⟩
              else if allZerosB (digitsOfNormalized (some raw)) then
                ⟨false, some ("Phone number cannot be all zeros")⟩
              else ⟨true, none⟩ : PhoneValidation) := by
            simp only [validatePhone, h0, hLf, hN, digitsOfNormalized]
            simp [h0, hN]
          rw [hval]
          by_cases hLt : (digitsOfNormalized (some raw)).length < PHONE_MIN_DIGITS
          · rw [if_pos hLt]
            refine ⟨by simp [hLt], ?_⟩
            intro s hs _
            refine ⟨fun _ _ => rfl, fun h1 => absurd h1 ?_⟩
            simp only [PHONE_MIN_DIGITS] at hLt
            simp only [PHONE_MAX_DIGITS]
            omega
          · rw [if_neg hLt]
            by_cases hGt : (digitsOfNormalized (some raw)).length > PHONE_MAX_DIGITS
            · rw [if_pos hGt]
              refine ⟨by simp [hGt, Nat.lt_of_lt_of_le], ?_⟩
              · intro s hs _
                exact ⟨fun h1 h2 => absurd h2 hLt, fun _ => rfl⟩
            · rw [if_neg hGt]
              by_cases hZ : allZerosB (digitsOfNormalized (some raw))
              · rw [if_pos hZ]
                refine ⟨by simp [hZ], ?_⟩
                intro s hs _
                exact ⟨fun h1 h2 => absurd h2 hLt, fun h1 => absurd h1 hGt⟩
              · rw [if_neg hZ]
                refine ⟨?_, ?_⟩
                · simp only [show (PhoneValidation.mk true none).valid = true from rfl]
                  constructor
                  · intro h1
                    exact absurd h1 (by simp)
                  · intro h1
                    rcases h1 with h1 | h1 | ⟨s, hs, hsl⟩ | h1 | h1 | h1
                    · exact absurd h1 (by simp)
                    · exact absurd (by simpa using h1) h0
                    · obtain rfl : s = raw := by simpa using hs.symm
                      exact absurd hsl (by simp [hLf])
                    · exact absurd h1 (by simp [hZ])
                    · exact absurd h1 hLt
                    · exact absurd h1 (by omega)
                · intro s hs _
                  exact ⟨fun h1 h2 => absurd h2 hLt, fun h1 => absurd h1 (by omega)⟩

/-- Witness for C7 at the concrete input `"12345"`: invalid, and the
too-short reason names the digit count 5. -/
theorem c7_witness :
    (validatePhone (some ("12345"))).valid = false
  ∧ (validatePhone (some ("12345"))).reason
      = some (tooShortReason ((digitsOfNormalized (some ("12345"))).length)) := by
  have h := c7_validate_phone_characterization (some ("12345"))
  exact ⟨h.1.mpr (Or.inr (Or.inr (Or.inr (Or.inr (Or.inl (by decide)))))),
         (h.2 "12345" rfl (by decide)).1 (by decide) (by decide)⟩

/- ## Claim C5: column auto-detection -/

theorem jsFindIndex_lt {α : Type} {p : α → Bool} {l : List α} {i : Nat}
    (h : jsFindIndex p l = some i) : i < l.length := by
  induction l generalizing i with
  | nil => simp [jsFindIndex] at h
  | cons a as ih =>
    simp only [jsFindIndex] at h
    split at h
    · simp only [Option.some.injEq] at h
      subst h
      simp
    · cases hj : jsFindIndex p as with
      | none => rw [hj] at h; simp at h
      | some j =>
        rw [hj] at h
        simp only [Option.map_some', Option.some.injEq] at h
        subst h
        have := ih hj
        simp
        omega

theorem getD_mem {α : Type} {l : List α} {i : Nat} (h : i < l.length) (d : α) :
    l.getD i d ∈ l := by
  induction l generalizing i with
  | nil => simp at h
  | cons a as ih =>
    cases i with
    | zero => simp [List.getD]
    | succ n =>
      have hn : n < as.length := by simpa using h
      have : (a :: as).getD (n + 1) d = as.getD n d := by simp [List.getD]
      rw [this]
      exact List.mem_cons_of_mem a (ih hn)

theorem detectFieldHeader_mem {normalizedHeaders headers : List String}
    (hlen : normalizedHeaders.length = headers.length) :
    ∀ {aliases : List String} {h : String},
      detectFieldHeader normalizedHeaders headers aliases = some h → h ∈ headers := by
  intro aliases
  induction aliases with
  | nil => intro h hh; simp [detectFieldHeader] at hh
  | cons a rest ih =>
    intro h hh
    simp only [detectFieldHeader] at hh
    cases hf : jsFindIndex (fun x => headerAliasMatch x a) normalizedHeaders with
    | none => rw [hf] at hh; exact ih hh
    | some idx =>
      rw [hf] at hh
      simp only [Option.some.injEq] at hh
      subst hh
      exact getD_mem (hlen ▸ jsFindIndex_lt hf) ("")

/-- **C5** (corrected): with the single header `"contact"`, the name field
matches through the alias `"contact name"` (the alias contains the header)
and the phone field matches through `"contact number"`, so two different
semantic fields claim the same header — the source tracks no set of
already-claimed headers. -/
theorem c5_counterexample :
    (autoDetectColumns [("contact")]).name = some ("contact")
  ∧ (autoDetectColumns [("contact")]).phone = some ("contact") := by
  decide

/-- **C5** (amended).  Every header `autoDetectColumns` assigns to a field
is an element of the input header list (each field independently receives
the first header matching its earliest alias); distinct fields are *not*
guaranteed distinct headers. -/
theorem c5_mapped_headers_from_input (headers : List String) :
    (∀ h, (autoDetectColumns headers).name = some h → h ∈ headers)
  ∧ (∀ h, (autoDetectColumns headers).phone = some h → h ∈ headers)
  ∧ (∀ h, (autoDetectColumns headers).email = some h → h ∈ headers)
  ∧ (∀ h, (autoDetectColumns headers).company = some h → h ∈ headers)
  ∧ (∀ h, (autoDetectColumns headers).notes = some h → h ∈ headers) := by
  have hlen : (headers.map (fun h => jsTrim (jsToLower h))).length = headers.length := by
    simp
  exact ⟨fun h hh => detectFieldHeader_mem hlen hh,
         fun h hh => detectFieldHeader_mem hlen hh,
         fun h hh => detectFieldHeader_mem hlen hh,
         fun h hh => detectFieldHeader_mem hlen hh,
         fun h hh => detectFieldHeader_mem hlen hh⟩

/-- Witness for C5: the header list `["Name"]` maps the name field to
`"Name"`, which the theorem places back in the input list. -/
theorem c5_witness :
    (autoDetectColumns [("Name")]).name = some ("Name")
  ∧ ("Name") ∈ [("Name")] := by
  refine ⟨by decide, ?_⟩
  exact (c5_mapped_headers_from_input [("Name")]).1 ("Name") (by decide)

/- ## Claim C2: duplicate classification -/

/-- The duplicate annotation `checkDuplicates` applies when pushing a row
into the `duplicates` bucket. -/
def markDup (row : ContactRow) (da : DuplicateAction) (eid : Option String) :
    ContactRow :=
  { row with isDuplicate := true, duplicateAction := da, existingContactId := eid }

/-- The annotation `checkDuplicates` applies when pushing a row into the
`newContacts` bucket. -/
def markNew (row : ContactRow) : ContactRow := { row with isDuplicate := false }

theorem rowKey_markDup (row : ContactRow) (da : DuplicateAction)
    (eid : Option String) : rowKey (markDup row da eid) = rowKey row := rfl

theorem rowKey_markNew (row : ContactRow) : rowKey (markNew row) = rowKey row := rfl

theorem checkDupGo_cons_invalid {m : List (String × PhoneContact)}
    {da : DuplicateAction} {row : ContactRow} {rest : List ContactRow}
    {seen : List String} (hv : row.isValid = false) :
    checkDupGo m da (row :: rest) seen = checkDupGo m da rest seen := by
  simp [checkDupGo, hv]

theorem checkDupGo_cons_seen {m : List (String × PhoneContact)}
    {da : DuplicateAction} {row : ContactRow} {rest : List ContactRow}
    {seen : List String} (hv : row.isValid = true) (hs : rowKey row ∈ seen) :
    checkDupGo m da (row :: rest) seen =
      ((checkDupGo m da rest seen).1,
       markDup row da ((assocFind m (rowKey row)).map (fun e => e.id))
         :: (checkDupGo m da rest seen).2) := by
  simp [checkDupGo, hv, hs, markDup]

theorem checkDupGo_cons_device {m : List (String × PhoneContact)}
    {da : DuplicateAction} {row : ContactRow} {rest : List ContactRow}
    {seen : List String} {e : PhoneContact} (hv : row.isValid = true)
    (hs : rowKey row ∉ seen) (he : assocFind m (rowKey row) = some e) :
    checkDupGo m da (row :: rest) seen =
      ((checkDupGo m da rest (rowKey row :: seen)).1,
       markDup row da (some (e.id))
         :: (checkDupGo m da rest (rowKey row :: seen)).2) := by
  simp [checkDupGo, hv, hs, he, markDup]

theorem checkDupGo_cons_new {m : List (String × PhoneContact)}
    {da : DuplicateAction} {row : ContactRow} {rest : List ContactRow}
    {seen : List String} (hv : row.isValid = true)
    (hs : rowKey row ∉ seen) (he : assocFind m (rowKey row) = none) :
    checkDupGo m da (row :: rest) seen =
      (markNew row :: (checkDupGo m da rest (rowKey row :: seen)).1,
       (checkDupGo m da rest (rowKey row :: seen)).2) := by
  simp [checkDupGo, hv, hs, he, markNew]

/-- Classification bookkeeping of `checkDupGo`, for an arbitrary key `k`:
how many same-key rows land in each bucket, and which row is the "new"
one, as a function of the already-seen set and of the device lookup map. -/
theorem checkDupGo_spec (m : List (String × PhoneContact)) (da : DuplicateAction)
    (k : String) (rows : List ContactRow) : ∀ (seen : List String),
      (((checkDupGo m da rows seen).1.filter (fun x => rowKey x == k)).length
        = if k ∈ seen ∨ assocFind m k ≠ none
             ∨ (rows.filter (validWithKey k)).length = 0
          then 0 else 1)
    ∧ ((checkDupGo m da rows seen).2.filter (fun x => rowKey x == k)).length
        = (rows.filter (validWithKey k)).length
          - ((checkDupGo m da rows seen).1.filter (fun x => rowKey x == k)).length
    ∧ (k ∉ seen → assocFind m k = none →
        (checkDupGo m da rows seen).1.filter (fun x => rowKey x == k)
          = ((rows.find? (validWithKey k)).map markNew).toList) := by
  induction rows with
  | nil =>
    intro seen
    refine ⟨?_, ?_, ?_⟩ <;> simp [checkDupGo]
  | cons row rest ih =>
    intro seen
    by_cases hv : row.isValid = false
    · have hvk : ¬ validWithKey k row = true := by simp [validWithKey, hv]
      have hcount : List.filter (validWithKey k) (row :: rest)
          = List.filter (validWithKey k) rest := List.filter_cons_of_neg hvk
      rw [checkDupGo_cons_invalid hv]
      obtain ⟨ih1, ih2, ih3⟩ := ih seen
      refine ⟨?_, ?_, ?_⟩
      · rw [hcount]; exact ih1
      · rw [hcount]; exact ih2
      · intro h1 h2
        rw [List.find?_cons_of_neg _ hvk]
        exact ih3 h1 h2
    · have hv' : row.isValid = true := by simpa using hv
      by_cases hk : rowKey row = k
      · have hvk : validWithKey k row = true := by simp [validWithKey, hv', hk]
        have hb : (rowKey row == k) = true := by simp [hk]
        have hcount : List.filter (validWithKey k) (row :: rest)
            = row :: List.filter (validWithKey k) rest :=
          List.filter_cons_of_pos hvk
        by_cases hseen : rowKey row ∈ seen
        · have hkseen : k ∈ seen := hk ▸ hseen
          rw [checkDupGo_cons_seen hv' hseen]
          obtain ⟨ih1, ih2, ih3⟩ := ih seen
          have h0 : ((checkDupGo m da rest seen).1.filter
              (fun x => rowKey x == k)).length = 0 := by
            rw [ih1, if_pos (Or.inl hkseen)]
          have hfd : List.filter (fun x => rowKey x == k)
              (markDup row da ((assocFind m (rowKey row)).map (fun e => e.id))
                :: (checkDupGo m da rest seen).2)
              = markDup row da ((assocFind m (rowKey row)).map (fun e => e.id))
                :: List.filter (fun x => rowKey x == k) (checkDupGo m da rest seen).2 := by
            rw [List.filter_cons]
            simp [rowKey_markDup, hb]
          refine ⟨?_, ?_, ?_⟩
          · rw [if_pos (Or.inl hkseen)]
            exact h0
          · rw [hfd, hcount]
            simp only [List.length_cons]
            omega
          · intro h1 _
            exact absurd hkseen h1
        · cases he : assocFind m (rowKey row) with
          | some e =>
            have hdev : assocFind m k ≠ none := by
              rw [← hk, he]
              simp
            rw [checkDupGo_cons_device hv' hseen he]
            obtain ⟨ih1, ih2, ih3⟩ := ih (rowKey row :: seen)
            have hmem0 : k ∈ rowKey row :: seen := by
              rw [hk]
              exact List.mem_cons_self k seen
            have h0 : ((checkDupGo m da rest (rowKey row :: seen)).1.filter
                (fun x => rowKey x == k)).length = 0 := by
              rw [ih1, if_pos (Or.inl hmem0)]
            have hfd : List.filter (fun x => rowKey x == k)
                (markDup row da (some (e.id))
                  :: (checkDupGo m da rest (rowKey row :: seen)).2)
                = markDup row da (some (e.id))
                  :: List.filter (fun x => rowKey x == k)
                      (checkDupGo m da rest (rowKey row :: seen)).2 := by
              rw [List.filter_cons]
              simp [rowKey_markDup, hb]
            refine ⟨?_, ?_, ?_⟩
            · rw [if_pos (Or.inr (Or.inl hdev))]
              exact h0
            · rw [hfd, hcount]
              simp only [List.length_cons]
              omega
            · intro _ h2
              exact absurd h2 hdev
          | none =>
            have hdev : assocFind m k = none := by rw [← hk]; exact he
            have hkseen : k ∉ seen := by rw [← hk]; exact hseen
            rw [checkDupGo_cons_new hv' hseen he]
            obtain ⟨ih1, ih2, ih3⟩ := ih (rowKey row :: seen)
            have hmem0 : k ∈ rowKey row :: seen := by
              rw [hk]
              exact List.mem_cons_self k seen
            have h0 : ((checkDupGo m da rest (rowKey row :: seen)).1.filter
                (fun x => rowKey x == k)).length = 0 := by
              rw [ih1, if_pos (Or.inl hmem0)]
            have hfe : (checkDupGo m da rest (rowKey row :: seen)).1.filter
                (fun x => rowKey x == k) = [] :=
              List.eq_nil_of_length_eq_zero h0
            have hfd : List.filter (fun x => rowKey x == k)
                (markNew row :: (checkDupGo m da rest (rowKey row :: seen)).1)
                = markNew row
                  :: List.filter (fun x => rowKey x == k)
                      (checkDupGo m da rest (rowKey row :: seen)).1 := by
              rw [List.filter_cons]
              simp [rowKey_markNew, hb]
            refine ⟨?_, ?_, ?_⟩
            · have hC : ¬ (k ∈ seen ∨ assocFind m k ≠ none
                  ∨ (List.filter (validWithKey k) (row :: rest)).length = 0) := by
                intro hC
                rcases hC with hC | hC | hC
                · exact hkseen hC
                · exact hC hdev
                · rw [hcount] at hC
                  simp at hC
              rw [if_neg hC, hfd, List.length_cons, h0]
            · rw [hfd, hcount]
              simp only [List.length_cons]
              omega
            · intro _ _
              rw [List.find?_cons_of_pos _ hvk, hfd, hfe]
              simp
      · have hvk : ¬ validWithKey k row = true := by simp [validWithKey, hk]
        have hb : (rowKey row == k) = false := by simp [hk]
        have hcount : List.filter (validWithKey k) (row :: rest)
            = List.filter (validWithKey k) rest := List.filter_cons_of_neg hvk
        by_cases hseen : rowKey row ∈ seen
        · rw [checkDupGo_cons_seen hv' hseen]
          obtain ⟨ih1, ih2, ih3⟩ := ih seen
          have hfd : List.filter (fun x => rowKey x == k)
              (markDup row da ((assocFind m (rowKey row)).map (fun e => e.id))
                :: (checkDupGo m da rest seen).2)
              = List.filter (fun x => rowKey x == k) (checkDupGo m da rest seen).2 := by
            rw [List.filter_cons]
            simp [rowKey_markDup, hb]
          refine ⟨?_, ?_, ?_⟩
          · rw [hcount]; exact ih1
          · rw [hfd, hcount]; exact ih2
          · intro h1 h2
            rw [List.find?_cons_of_neg _ hvk]
            exact ih3 h1 h2
        · have hmemiff : (k ∈ rowKey row :: seen) ↔ (k ∈ seen) := by
            constructor
            · intro hc
              rcases List.mem_cons.mp hc with hc | hc
              · exact absurd hc.symm hk
              · exact hc
            · exact fun hc => List.mem_cons_of_mem _ hc
          cases he : assocFind m (rowKey row) with
          | some e =>
            rw [checkDupGo_cons_device hv' hseen he]
            obtain ⟨ih1, ih2, ih3⟩ := ih (rowKey row :: seen)
            have hfd : List.filter (fun x => rowKey x == k)
                (markDup row da (some (e.id))
                  :: (checkDupGo m da rest (rowKey row :: seen)).2)
                = List.filter (fun x => rowKey x == k)
                    (checkDupGo m da rest (rowKey row :: seen)).2 := by
              rw [List.filter_cons]
              simp [rowKey_markDup, hb]
            refine ⟨?_, ?_, ?_⟩
            · rw [hcount, ih1]
              simp only [hmemiff]
            · rw [hfd, hcount]
              exact ih2
            · intro h1 h2
              rw [List.find?_cons_of_neg _ hvk]
              exact ih3 (fun hc => h1 (hmemiff.mp hc)) h2
          | none =>
            rw [checkDupGo_cons_new hv' hseen he]
            obtain ⟨ih1, ih2, ih3⟩ := ih (rowKey row :: seen)
            have hfd : List.filter (fun x => rowKey x == k)
                (markNew row :: (checkDupGo m da rest (rowKey row :: seen)).1)
                = List.filter (fun x => rowKey x == k)
                    (checkDupGo m da rest (rowKey row :: seen)).1 := by
              rw [List.filter_cons]
              simp [rowKey_markNew, hb]
            refine ⟨?_, ?_, ?_⟩
            · rw [hfd, hcount, ih1]
              simp only [hmemiff]
            · rw [hfd, hcount]
              exact ih2
            · intro h1 h2
              rw [hfd, List.find?_cons_of_neg _ hvk]
              exact ih3 (fun hc => h1 (hmemiff.mp hc)) h2

/-- **C2** (corrected): two valid rows share lookup key `9876543210` and a
device contact carries that key; `checkDuplicates` then classifies *zero*
rows as new (the first row is a device duplicate), not "exactly one
regardless of device-contact presence" as the claim states. -/
theorem c2_counterexample :
    (checkDuplicates
      [⟨("r1"), ("A"), ("9876543210"), none, none, none, true, [], false,
        DuplicateAction.skip, none, true⟩,
       ⟨("r2"), ("B"), ("+919876543210"), none, none, none, true, [], false,
        DuplicateAction.skip, none, true⟩]
      [⟨("d1"), ("D"), [("9876543210")], [("9876543210")], [], none⟩]
      DuplicateAction.skip).newContacts = []
  ∧ (checkDuplicates
      [⟨("r1"), ("A"), ("9876543210"), none, none, none, true, [], false,
        DuplicateAction.skip, none, true⟩,
       ⟨("r2"), ("B"), ("+919876543210"), none, none, none, true, [], false,
        DuplicateAction.skip, none, true⟩]
      [⟨("d1"), ("D"), [("9876543210")], [("9876543210")], [], none⟩]
      DuplicateAction.skip).duplicates.length = 2 := by
  decide

/-- **C2** (amended).  Among the valid rows sharing a lookup key `k` (at
least two of them), every occurrence after the first is classified as a
duplicate; the first occurrence is classified as new exactly when no
device contact carries key `k`, and as a duplicate otherwise.  The new
bucket's `k`-rows are exactly the first valid `k`-row (marked
not-duplicate) when the device store lacks the key. -/
theorem c2_first_occurrence_classification (rows : List ContactRow)
    (devices : List PhoneContact) (da : DuplicateAction) (k : String)
    (h2 : 2 ≤ (rows.filter (validWithKey k)).length) :
    (((checkDuplicates rows devices da).newContacts.filter
        (fun x => rowKey x == k)).length
      = if assocFind (buildPhoneLookupMap devices) k = none then 1 else 0)
  ∧ ((checkDuplicates rows devices da).duplicates.filter
        (fun x => rowKey x == k)).length
      = (rows.filter (validWithKey k)).length
        - ((checkDuplicates rows devices da).newContacts.filter
            (fun x => rowKey x == k)).length
  ∧ (assocFind (buildPhoneLookupMap devices) k = none →
      (checkDuplicates rows devices da).newContacts.filter (fun x => rowKey x == k)
        = ((rows.find? (validWithKey k)).map markNew).toList) := by
  obtain ⟨s1, s2, s3⟩ := checkDupGo_spec (buildPhoneLookupMap devices) da k rows []
  have hnc : (checkDuplicates rows devices da).newContacts
      = (checkDupGo (buildPhoneLookupMap devices) da rows []).1 := rfl
  have hdc : (checkDuplicates rows devices da).duplicates
      = (checkDupGo (buildPhoneLookupMap devices) da rows []).2 := rfl
  rw [hnc, hdc]
  refine ⟨?_, s2, fun h => s3 (by simp) h⟩
  rw [s1]
  by_cases hd : assocFind (buildPhoneLookupMap devices) k = none
  · rw [if_pos hd, if_neg]
    intro hC
    rcases hC with hC | hC | hC
    · simp at hC
    · exact hC hd
    · omega
  · rw [if_neg hd, if_pos (Or.inr (Or.inl hd))]

/-- Witness for C2 at concrete inputs: two valid rows sharing key
`9876543210` with an empty device store — one lands in `newContacts`. -/
theorem c2_witness :
    2 ≤ (([⟨("r1"), ("A"), ("9876543210"), none, none, none, true, [], false,
            DuplicateAction.skip, none, true⟩,
           ⟨("r2"), ("B"), ("+919876543210"), none, none, none, true, [], false,
            DuplicateAction.skip, none, true⟩] : List ContactRow).filter
          (validWithKey ("9876543210"))).length
  ∧ ((checkDuplicates
        [⟨("r1"), ("A"), ("9876543210"), none, none, none, true, [], false,
          DuplicateAction.skip, none, true⟩,
         ⟨("r2"), ("B"), ("+919876543210"), none, none, none, true, [], false,
          DuplicateAction.skip, none, true⟩]
        [] DuplicateAction.skip).newContacts.filter
        (fun x => rowKey x == ("9876543210"))).length
      = if assocFind (buildPhoneLookupMap []) ("9876543210") = none then 1 else 0 := by
  refine ⟨by decide, ?_⟩
  exact (c2_first_occurrence_classification
    [⟨("r1"), ("A"), ("9876543210"), none, none, none, true, [], false,
      DuplicateAction.skip, none, true⟩,
     ⟨("r2"), ("B"), ("+919876543210"), none, none, none, true, [], false,
      DuplicateAction.skip, none, true⟩]
    [] DuplicateAction.skip ("9876543210") (by decide)).1

/- ## Claim C8: phone digit strings survive export verbatim -/

theorem strHasRun_trans {a b n : String} (h1 : strHasRun a b) (h2 : strHasRun b n) :
    strHasRun a n := by
  obtain ⟨p, q, hp⟩ := h1
  obtain ⟨p', q', hp'⟩ := h2
  exact ⟨p ++ p', q' ++ q, by rw [hp, hp']; simp⟩

theorem strHasRun_append_left (a b n : String) (h : strHasRun b n) :
    strHasRun (a ++ b) n := by
  obtain ⟨p, q, hp⟩ := h
  exact ⟨a.data ++ p, q, by rw [String.data_append, hp]; simp⟩

theorem strHasRun_append_right (a b n : String) (h : strHasRun a n) :
    strHasRun (a ++ b) n := by
  obtain ⟨p, q, hp⟩ := h
  exact ⟨p, q ++ b.data, by rw [String.data_append, hp]; simp⟩

theorem strHasRun_self (n : String) : strHasRun n n := ⟨[], [], by simp⟩

theorem leadsWith_iff : ∀ (pat l : List Char),
    leadsWith pat l = true ↔ ∃ q, l = pat ++ q := by
  intro pat
  induction pat with
  | nil =>
    intro l
    simp [leadsWith]
  | cons p ps ih =>
    intro l
    cases l with
    | nil =>
      simp [leadsWith]
    | cons c cs =>
      simp only [leadsWith, Bool.and_eq_true, beq_iff_eq]
      constructor
      · rintro ⟨rfl, h⟩
        obtain ⟨q, rfl⟩ := (ih cs).mp h
        exact ⟨q, rfl⟩
      · rintro ⟨q, hq⟩
        injection hq with h1 h2
        exact ⟨h1.symm, (ih cs).mpr ⟨q, h2⟩⟩

theorem charsHave_iff : ∀ (hay needle : List Char),
    charsHave needle hay = true ↔ ∃ p q, hay = p ++ needle ++ q := by
  intro hay
  induction hay with
  | nil =>
    intro needle
    simp only [charsHave, List.isEmpty_iff]
    constructor
    · rintro rfl
      exact ⟨[], [], rfl⟩
    · rintro ⟨p, q, hpq⟩
      have hlen := congrArg List.length hpq
      simp only [List.length_nil, List.length_append] at hlen
      have : needle.length = 0 := by omega
      exact List.eq_nil_of_length_eq_zero this
  | cons c cs ih =>
    intro needle
    simp only [charsHave, Bool.or_eq_true]
    rw [leadsWith_iff, ih]
    constructor
    · rintro (⟨q, hq⟩ | ⟨p, q, hpq⟩)
      · exact ⟨[], q, by simp [hq]⟩
      · exact ⟨c :: p, q, by simp [hpq]⟩
    · rintro ⟨p, q, hpq⟩
      cases p with
      | nil =>
        left
        exact ⟨q, by simpa using hpq⟩
      | cons p0 ps =>
        right
        injection hpq with h1 h2
        exact ⟨ps, q, h2⟩

theorem strHasRun_iff_charsHave (hay needle : String) :
    strHasRun hay needle ↔ charsHave needle.data hay.data = true := by
  rw [charsHave_iff]
  exact Iff.rfl

theorem mem_joinSep_run (sep x : String) : ∀ (l : List String), x ∈ l →
    strHasRun (joinSep sep l) x := by
  intro l
  induction l with
  | nil => intro h; simp at h
  | cons a as ih =>
    intro h
    rcases List.mem_cons.mp h with h | h
    · subst h
      cases as with
      | nil => exact strHasRun_self x
      | cons b bs =>
        exact strHasRun_append_right _ _ _ (strHasRun_append_right _ _ _ (strHasRun_self x))
    · cases as with
      | nil => simp at h
      | cons b bs =>
        exact strHasRun_append_left _ _ _ (ih h)

theorem safeJoinStep_seen {acc : List String × List String} {p K : String}
    (h : K ∉ acc.1) (hp : joinPhoneKey (safePhone p) ≠ K) :
    K ∉ (safeJoinStep acc p).1 := by
  simp only [safeJoinStep]
  split
  · exact h
  · split
    · exact h
    · split
      · intro hc
        rcases List.mem_cons.mp hc with hc | hc
        · exact hp hc.symm
        · exact h hc
      · exact h

theorem safeJoin_seen_sub : ∀ (l : List String) (acc : List String × List String)
    (K : String), K ∉ acc.1 → (∀ p ∈ l, joinPhoneKey (safePhone p) ≠ K) →
    K ∉ (l.foldl safeJoinStep acc).1 := by
  intro l
  induction l with
  | nil => intro acc K h _; exact h
  | cons p ps ih =>
    intro acc K h hall
    rw [List.foldl_cons]
    exact ih _ K (safeJoinStep_seen h (hall p (by simp)))
      (fun x hx => hall x (by simp [hx]))

theorem safeJoinStep_unique_mono {acc : List String × List String} {p x : String}
    (h : x ∈ acc.2) : x ∈ (safeJoinStep acc p).2 := by
  simp only [safeJoinStep]
  split
  · exact h
  · split
    · exact h
    · split
      · simpa using Or.inl h
      · simpa using Or.inl h

theorem safeJoin_unique_mono : ∀ (l : List String) (acc : List String × List String)
    (x : String), x ∈ acc.2 → x ∈ (l.foldl safeJoinStep acc).2 := by
  intro l
  induction l with
  | nil => intro acc x h; exact h
  | cons p ps ih =>
    intro acc x h
    rw [List.foldl_cons]
    exact ih _ x (safeJoinStep_unique_mono h)

theorem safeJoinStep_pushes {acc : List String × List String} {p : String}
    (hne : ¬ safePhone p = "") (hkey : joinPhoneKey (safePhone p) ≠ "")
    (hnotseen : joinPhoneKey (safePhone p) ∉ acc.1) :
    safePhone p ∈ (safeJoinStep acc p).2 := by
  simp only [safeJoinStep]
  rw [if_neg hne, if_neg (by rintro ⟨_, hc⟩; exact hnotseen hc), if_pos hkey]
  simp

theorem safeJoinPhones_run (phones : List String) (target : String)
    (hne : ¬ safePhone target = "")
    (hkey : joinPhoneKey (safePhone target) ≠ "")
    (hsplit : ∃ pre post, phones = pre ++ target :: post
        ∧ ∀ p ∈ pre, joinPhoneKey (safePhone p) ≠ joinPhoneKey (safePhone target)) :
    strHasRun (safeJoinPhones phones) (safePhone target) := by
  obtain ⟨pre, post, hsp, hprekeys⟩ := hsplit
  subst hsp
  unfold safeJoinPhones
  rw [List.foldl_append, List.foldl_cons]
  have hseen : joinPhoneKey (safePhone target) ∉ (List.foldl safeJoinStep ([], []) pre).1 :=
    safeJoin_seen_sub pre ([], []) _ (by simp) hprekeys
  exact mem_joinSep_run _ _ _
    (safeJoin_unique_mono post _ _ (safeJoinStep_pushes hne hkey hseen))

theorem flatMapQuotes_id : ∀ {l : List Char},
    (∀ c ∈ l, (c == '"') = false) → doubleQuotesChars l = l := by
  intro l
  induction l with
  | nil => intro _; rfl
  | cons c cs ih =>
    intro h
    have hc : (c == '"') = false := h c (by simp)
    have ih' : doubleQuotesChars cs = cs := ih (fun x hx => h x (by simp [hx]))
    show (if c == '"' then ['"', '"'] else [c]) ++ doubleQuotesChars cs = c :: cs
    rw [hc, ih']
    simp

theorem doubleQuotes_run {J t : String} (h : strHasRun J t)
    (ht : ∀ c ∈ t.data, (c == '"') = false) :
    strHasRun (String.mk (doubleQuotesChars J.data)) t := by
  obtain ⟨p, q, hp⟩ := h
  refine ⟨doubleQuotesChars p, doubleQuotesChars q, ?_⟩
  show doubleQuotesChars J.data = _
  rw [hp]
  unfold doubleQuotesChars
  rw [List.flatMap_append, List.flatMap_append]
  rw [show (t.data.flatMap fun c => if c == '"' then ['"', '"'] else [c])
        = doubleQuotesChars t.data from rfl]
  rw [flatMapQuotes_id ht]

/-- **C8** (corrected): `safeJoinPhones` deduplicates by last-10-digit key,
so when an earlier phone in the list shares the key `1500000000`, the
literal `9191500000000` is dropped from both the CSV text and the XLSX
phone cell even though the contact's phone list contains it. -/
theorem c8_counterexample :
    ("9191500000000") ∈ [("1500000000"), ("9191500000000")]
  ∧ ¬ strHasRun
      (exportToCSVText
        [⟨("c1"), ("A"), [("1500000000"), ("9191500000000")], [], [], none⟩])
      ("9191500000000")
  ∧ ¬ strHasRun
      (xlsxPhoneCell ⟨("c1"), ("A"), [("1500000000"), ("9191500000000")], [], [], none⟩)
      ("9191500000000") := by
  refine ⟨by simp, ?_, ?_⟩
  · rw [strHasRun_iff_charsHave]
    decide
  · rw [strHasRun_iff_charsHave]
    decide

/-- **C8** (amended).  For every contact whose phone list contains the
digit string `9191500000000` at a position not preceded by a phone with
the same last-10-digit dedup key, the CSV text produced by `exportToCSV`
and the phone cell produced by `exportToXLSX` contain the literal digit
string `9191500000000` (never a scientific-notation rendering: the cell
value is built by string concatenation only). -/
theorem c8_export_phone_literal (contacts : List PhoneContact) (c : PhoneContact)
    (hmem : c ∈ contacts)
    (hfirst : ∃ pre post, c.phones = pre ++ ("9191500000000") :: post
        ∧ ∀ p ∈ pre, joinPhoneKey (safePhone p) ≠ ("1500000000")) :
    strHasRun (exportToCSVText contacts) ("9191500000000")
  ∧ strHasRun (xlsxPhoneCell c) ("9191500000000") := by
  have hkeyval : joinPhoneKey (safePhone ("9191500000000")) = ("1500000000") := by
    decide
  have hrunJ : strHasRun (safeJoinPhones c.phones) ("9191500000000") := by
    have hr := safeJoinPhones_run c.phones ("9191500000000") (by decide) (by decide) ?_
    · exact hr
    · obtain ⟨pre, post, h1, h2⟩ := hfirst
      refine ⟨pre, post, h1, fun p hp => ?_⟩
      rw [hkeyval]
      exact h2 p hp
  refine ⟨?_, hrunJ⟩
  have hnoq : ∀ ch ∈ ("9191500000000" : String).data, (ch == '"') = false := by decide
  have hcell : strHasRun (csvPhoneCell (safeJoinPhones c.phones)) ("9191500000000") := by
    unfold csvPhoneCell
    exact strHasRun_append_right _ _ _
      (strHasRun_append_left _ _ _ (doubleQuotes_run hrunJ hnoq))
  have hrow : strHasRun (exportToCSVRow c) ("9191500000000") := by
    refine strHasRun_trans ?_ hcell
    unfold exportToCSVRow
    exact mem_joinSep_run _ _ _ (by simp)
  have hcsv : strHasRun (exportToCSVText contacts) (exportToCSVRow c) := by
    unfold exportToCSVText
    exact mem_joinSep_run _ _ _ (List.mem_cons_of_mem _ (List.mem_map_of_mem _ hmem))
  exact strHasRun_trans hcsv hrow

/-- Witness for C8 at a concrete single-phone contact. -/
theorem c8_witness :
    strHasRun
      (exportToCSVText [⟨("c1"), ("A"), [("9191500000000")], [], [], none⟩])
      ("9191500000000")
  ∧ strHasRun
      (xlsxPhoneCell ⟨("c1"), ("A"), [("9191500000000")], [], [], none⟩)
      ("9191500000000") :=
  c8_export_phone_literal
    [⟨("c1"), ("A"), [("9191500000000")], [], [], none⟩]
    ⟨("c1"), ("A"), [("9191500000000")], [], [], none⟩
    (by simp) ⟨[], [], rfl, by simp⟩

/- ## Claim C9: merge-on-export -/
theorem idxFind_cons (e : String × Nat) (m : List (String × Nat)) (x : String) :
    idxFind (e :: m) x = if (e.1 == x) then some e.2 else idxFind m x := by
  by_cases h : (e.1 == x) = true
  · rw [if_pos h]
    unfold idxFind
    rw [@List.find?_cons_of_pos _ (fun e2 => e2.1 == x) e m h]
    rfl
  · rw [if_neg h]
    unfold idxFind
    rw [@List.find?_cons_of_neg _ (fun e2 => e2.1 == x) e m h]

theorem idxFind_map_zero (keys : List String) (x : String) :
    idxFind (keys.map (fun k => (k, 0))) x = none
  ∨ idxFind (keys.map (fun k => (k, 0))) x = some 0 := by
  induction keys with
  | nil => exact Or.inl rfl
  | cons k ks ih =>
    rw [List.map_cons, idxFind_cons]
    by_cases h : ((((k, 0) : String × Nat).1 == x) = true)
    · right
      rw [if_pos h]
    · rw [if_neg h]
      exact ih

theorem idxFind_map_mem {keys : List String} {x : String} (h : x ∈ keys) :
    idxFind (keys.map (fun k => (k, 0))) x = some 0 := by
  induction keys with
  | nil => simp at h
  | cons k ks ih =>
    rw [List.map_cons, idxFind_cons]
    by_cases hk : ((((k, 0) : String × Nat).1 == x) = true)
    · rw [if_pos hk]
    · rw [if_neg hk]
      rcases List.mem_cons.mp h with h1 | h1
      · exact absurd (by simp [h1]) hk
      · exact ih h1

theorem findSome?_zero {α : Type} {f : α → Option Nat} : ∀ {l : List α},
    (∀ a ∈ l, f a = none ∨ f a = some 0) → (∃ a ∈ l, f a = some 0) →
    l.findSome? f = some 0 := by
  intro l
  induction l with
  | nil =>
    intro _ hex
    simp at hex
  | cons a as ih =>
    intro hall hex
    rw [List.findSome?_cons]
    cases hfa : f a with
    | some b =>
      rcases hall a (by simp) with h | h
      · rw [hfa] at h
        exact absurd h (by simp)
      · rw [hfa] at h
        simp only [Option.some.injEq] at h
        subst h
        rfl
    | none =>
      rcases hex with ⟨x, hx, hfx⟩
      rcases List.mem_cons.mp hx with hx | hx
      · subst hx
        rw [hfa] at hfx
        exact absurd hfx (by simp)
      · exact ih (fun y hy => hall y (by simp [hy])) ⟨x, hx, hfx⟩

theorem dedupGo_cons_merge {c : PhoneContact} {rest records : List PhoneContact}
    {seen : List (String × Nat)} {idx : Nat}
    (h : (keyListOf c).findSome? (fun k => idxFind seen k) = some idx) :
    dedupGo (c :: rest) records seen
      = dedupGo rest (modifyIdx records idx (fun rec => mergeInto rec c)) seen := by
  simp [dedupGo, h]

theorem dedupGo_cons_copy {c : PhoneContact} {rest records : List PhoneContact}
    {seen : List (String × Nat)}
    (h : (keyListOf c).findSome? (fun k => idxFind seen k) = none) :
    dedupGo (c :: rest) records seen
      = dedupGo rest
          (records ++ [{ c with phones := dedupPhonesCopy c.phones, emails := c.emails }])
          ((keyListOf c).map (fun k => (k, records.length)) ++ seen) := by
  simp [dedupGo, h]

/-- **C9** (corrected): contacts `A` (email `a@b.com`) and `B` (emails
`x@y.com`, `X@Y.COM`) share the phone key `1111111111`; the merged
record's email list keeps both case-variants of `x@y.com`, because the
merge loop checks against a lowercase set computed once and never
updated, so "no duplicate entries under case-insensitive comparison"
fails. -/
theorem c9_counterexample :
    deduplicateContacts
      [⟨("a1"), ("A"), [("1111111111")], [], [("a@b.com")], none⟩,
       ⟨("b1"), ("B"), [("1111111111")], [], [("x@y.com"), ("X@Y.COM")], none⟩]
      = [⟨("a1"), ("A"), [("1111111111")], [],
          [("a@b.com"), ("x@y.com"), ("X@Y.COM")], none⟩]
  ∧ ¬ (([("a@b.com"), ("x@y.com"), ("X@Y.COM")].map jsToLower).Nodup) := by
  refine ⟨by decide, by decide⟩

/-- **C9** (amended).  For a two-contact list `[c1, c2]` sharing a
(nonempty) phone lookup key, where each contact's own email list is
case-insensitively duplicate-free and contains no empty strings,
deduplication returns exactly one surviving record; its email list is the
union of both email sets under case-insensitive comparison, with no
duplicate entries; the company is backfilled from `c2` only when `c1`'s
company is absent (or empty). -/
theorem c9_merge_two_contacts (c1 c2 : PhoneContact)
    (hk : ∃ k, k ∈ keyListOf c2 ∧ k ∈ keyListOf c1)
    (hne2 : ∀ e ∈ c2.emails, e ≠ (""))
    (hnd1 : (c1.emails.map jsToLower).Nodup)
    (hnd2 : (c2.emails.map jsToLower).Nodup) :
    ∃ m, deduplicateContacts [c1, c2] = [m]
  ∧ (m.emails.map jsToLower).Nodup
  ∧ (m.emails.map jsToLower).toFinset = ((c1.emails ++ c2.emails).map jsToLower).toFinset
  ∧ m.company = (if !(optStrTruthy c1.company) && optStrTruthy c2.company
                 then c2.company else c1.company) := by
  obtain ⟨k, hk2, hk1⟩ := hk
  have hnone : (keyListOf c1).findSome? (fun k => idxFind [] k) = none :=
    List.findSome?_eq_none_iff.mpr (fun x _ => rfl)
  have hfind : (keyListOf c2).findSome?
      (fun k => idxFind ((keyListOf c1).map (fun k => (k, 0))) k) = some 0 :=
    findSome?_zero (fun a _ => idxFind_map_zero (keyListOf c1) a)
      ⟨k, hk2, idxFind_map_mem hk1⟩
  have hstep : deduplicateContacts [c1, c2]
      = [mergeInto { c1 with phones := dedupPhonesCopy c1.phones, emails := c1.emails } c2] := by
    show dedupGo [c1, c2] [] [] = _
    rw [dedupGo_cons_copy hnone]
    simp only [List.nil_append, List.append_nil, List.length_nil]
    rw [dedupGo_cons_merge hfind]
    simp [dedupGo, modifyIdx]
  refine ⟨mergeInto { c1 with phones := dedupPhonesCopy c1.phones, emails := c1.emails } c2,
    hstep, ?_, ?_, ?_⟩
  · show ((c1.emails ++ c2.emails.filter (fun e2 =>
        e2 != ("") && !((c1.emails.map jsToLower).contains (jsToLower e2)))).map
          jsToLower).Nodup
    rw [List.map_append, List.nodup_append]
    refine ⟨hnd1, ?_, ?_⟩
    · exact List.Nodup.sublist (List.Sublist.map _ (List.filter_sublist _)) hnd2
    · intro a ha hb
      rcases List.mem_map.mp hb with ⟨e, he, hea⟩
      rcases List.mem_filter.mp he with ⟨_, hcond⟩
      simp only [Bool.and_eq_true, bne_iff_ne, Bool.not_eq_true'] at hcond
      have hnotin : (jsToLower e) ∉ c1.emails.map jsToLower := by
        intro hc
        have : (c1.emails.map jsToLower).contains (jsToLower e) = true := by
          simp [hc]
        rw [this] at hcond
        exact absurd hcond.2 (by simp)
      rw [← hea] at ha
      exact hnotin ha
  · show ((c1.emails ++ c2.emails.filter (fun e2 =>
        e2 != ("") && !((c1.emails.map jsToLower).contains (jsToLower e2)))).map
          jsToLower).toFinset
      = ((c1.emails ++ c2.emails).map jsToLower).toFinset
    apply Finset.ext
    intro a
    simp only [List.mem_toFinset, List.map_append, List.mem_append, List.mem_map,
      List.mem_filter, Bool.and_eq_true, bne_iff_ne, Bool.not_eq_true']
    constructor
    · rintro (h | ⟨e, ⟨he, _⟩, hea⟩)
      · exact Or.inl h
      · exact Or.inr ⟨e, he, hea⟩
    · rintro (h | ⟨e, he, hea⟩)
      · exact Or.inl h
      · by_cases hlow : (jsToLower e) ∈ c1.emails.map jsToLower
        · left
          rcases List.mem_map.mp hlow with ⟨e1, he1, hle1⟩
          exact ⟨e1, he1, by rw [hle1, hea]⟩
        · right
          refine ⟨e, ⟨he, ⟨hne2 e he, ?_⟩⟩, hea⟩
        
          cases hcont : (c1.emails.map jsToLower).contains (jsToLower e)
          · rfl
          · exact absurd (by simpa using hcont) hlow
  · rfl

/-- Witness for C9 at two concrete single-phone contacts with distinct
emails. -/
theorem c9_witness :
    ∃ m, deduplicateContacts
      [⟨("a1"), ("A"), [("1111111111")], [], [("a@b.com")], none⟩,
       ⟨("b1"), ("B"), [("+911111111111")], [], [("x@y.com")], some ("Acme")⟩] = [m]
  ∧ (m.emails.map jsToLower).Nodup
  ∧ (m.emails.map jsToLower).toFinset
      = (([("a@b.com")] ++ [("x@y.com")]).map jsToLower).toFinset
  ∧ m.company = (if !(optStrTruthy (none : Option String)) && optStrTruthy (some ("Acme"))
                 then some ("Acme") else none) :=
  c9_merge_two_contacts
    ⟨("a1"), ("A"), [("1111111111")], [], [("a@b.com")], none⟩
    ⟨("b1"), ("B"), [("+911111111111")], [], [("x@y.com")], some ("Acme")⟩
    ⟨("1111111111"), by decide, by decide⟩
    (by decide) (by decide) (by decide)

/- ## Engine step lemmas (towards C1, C3, C4, C10) -/

theorem pollCancel_spec (env : Env) (atTop : Bool) (s : ImportState) :
    (pollCancel env atTop s).2.progress = s.progress
  ∧ (pollCancel env atTop s).2.addedContactIds = s.addedContactIds
  ∧ (pollCancel env atTop s).2.phonesAddedInSession = s.phonesAddedInSession
  ∧ (pollCancel env atTop s).2.emissions = s.emissions
  ∧ (pollCancel env atTop s).2.permIdx = s.permIdx
  ∧ (pollCancel env atTop s).2.writeIdx = s.writeIdx
  ∧ (pollCancel env atTop s).2.cancelIdx = s.cancelIdx + 1
  ∧ (pollCancel env atTop s).1 = env.cancel s.cancelIdx := by
  simp only [pollCancel]
  split <;> simp

theorem pollCancel_obs_cases (env : Env) (atTop : Bool) (s : ImportState) :
    (pollCancel env atTop s).2.obs = s.obs
  ∨ (s.obs = none ∧ env.cancel s.cancelIdx = true
      ∧ (pollCancel env atTop s).2.obs = some (s.progress, atTop)) := by
  simp only [pollCancel]
  split
  · rename_i h
    simp only [Bool.and_eq_true, Option.isNone_iff_eq_none] at h
    right
    exact ⟨h.2, h.1, rfl⟩
  · left
    rfl

theorem pollCancel_obs_of_false {env : Env} {atTop : Bool} {s : ImportState}
    (h : env.cancel s.cancelIdx = false) :
    (pollCancel env atTop s).2.obs = s.obs := by
  simp only [pollCancel, h]
  simp

theorem processRow_spec (env : Env) (row : ContactRow) (errIdx : Int)
    (countryCode : String) (s : ImportState) :
    rowStepOk s (processRow env row errIdx countryCode s) := by
  unfold rowStepOk
  simp only [processRow]
  split
  · simp [incSkipped, emitP]; omega
  · split
    · simp [recordFailure, emitP]; omega
    · split
      · split
        · simp [incSkipped, emitP]; omega
        · split
          · split
            · simp [updateContactOnDevice, emitP]; omega
            · simp [updateContactOnDevice, recordFailure, emitP]; omega
          · simp [incSkipped, emitP]; omega
        · simp only [doAdd]
          split
          · simp [addContactToDevice, emitP]; omega
          · simp [addContactToDevice, recordFailure, emitP]; omega
      · split
        · simp [incSkipped, emitP]; omega
        · simp only [doAdd]
          split
          · simp [addContactToDevice, emitP]; omega
          · simp [addContactToDevice, recordFailure, emitP]; omega

theorem rowStep_allCons {s r : ImportState} (h : rowStepOk s r)
    (ha : allConsistent s) : allConsistent r := by
  obtain ⟨_, _, _, _, _, _, _, _, h9, h10, _, h12⟩ := h
  have hc : consistentP r.progress := by
    have := ha.1
    unfold consistentP at this ⊢
    omega
  refine ⟨hc, ?_⟩
  intro p hp
  rw [h12] at hp
  rcases List.mem_cons.mp hp with hp | hp
  · rw [hp]
    exact hc
  · exact ha.2 p hp

theorem rowStep_idsInv {s r : ImportState} (h : rowStepOk s r)
    (hi : idsInv s) : idsInv r := by
  obtain ⟨_, _, _, _, _, _, _, _, _, _, h11, _⟩ := h
  unfold idsInv at hi ⊢
  omega

theorem checkPermM_spec (env : Env) (s : ImportState) :
    (checkPermM env s).2.progress = s.progress
  ∧ (checkPermM env s).2.addedContactIds = s.addedContactIds
  ∧ (checkPermM env s).2.phonesAddedInSession = s.phonesAddedInSession
  ∧ (checkPermM env s).2.emissions = s.emissions
  ∧ (checkPermM env s).2.cancelIdx = s.cancelIdx
  ∧ (checkPermM env s).2.writeIdx = s.writeIdx
  ∧ (checkPermM env s).2.obs = s.obs
  ∧ (checkPermM env s).1 = env.perm s.permIdx := by
  unfold checkPermM
  simp

theorem consistentP_of_countersEq {p q : ImportProgress} (h : countersEq p q)
    (hq : consistentP q) : consistentP p := by
  unfold countersEq at h
  unfold consistentP at hq ⊢
  omega

theorem processBatch_allCons (env : Env) (batch : List ContactRow) (start : Nat)
    (cc : String) : ∀ (l : List ContactRow) (s : ImportState),
    allConsistent s → allConsistent (processBatch env batch start cc l s) := by
  intro l
  induction l with
  | nil => intro s h; exact h
  | cons row rest ih =>
    intro s h
    simp only [processBatch]
    obtain ⟨hp1, _, _, hp4, _⟩ := pollCancel_spec env false s
    have hcons : allConsistent (pollCancel env false s).2 := by
      constructor
      · rw [hp1]
        exact h.1
      · rw [hp4]
        exact h.2
    split
    · exact hcons
    · exact ih _ (rowStep_allCons (processRow_spec env row _ cc _) hcons)

theorem processBatch_idsInv (env : Env) (batch : List ContactRow) (start : Nat)
    (cc : String) : ∀ (l : List ContactRow) (s : ImportState),
    idsInv s → idsInv (processBatch env batch start cc l s) := by
  intro l
  induction l with
  | nil => intro s h; exact h
  | cons row rest ih =>
    intro s h
    simp only [processBatch]
    obtain ⟨hp1, hp2, _, _, _⟩ := pollCancel_spec env false s
    have hids : idsInv (pollCancel env false s).2 := by
      unfold idsInv at h ⊢
      rw [hp1, hp2]
      exact h
    split
    · exact hids
    · exact ih _ (rowStep_idsInv (processRow_spec env row _ cc _) hids)

theorem runBatches_allCons (env : Env) (rows : List ContactRow) (cc : String)
    (bs tb : Nat) : ∀ (fuel bi : Nat) (s : ImportState),
    allConsistent s → allConsistent (runBatches env rows cc bs tb bi fuel s) := by
  intro fuel
  induction fuel with
  | zero =>
    intro bi s h
    simp only [runBatches]
    exact h
  | succ f ih =>
    intro bi s h
    simp only [runBatches]
    obtain ⟨hp1, _, _, hp4, _⟩ := pollCancel_spec env true s
    have hcons : allConsistent (pollCancel env true s).2 := by
      constructor
      · rw [hp1]
        exact h.1
      · rw [hp4]
        exact h.2
    split
    · constructor
      · have h1 := hcons.1
        unfold consistentP at h1 ⊢
        simp only [emitP]
        exact h1
      · intro p hp
        simp only [emitP] at hp
        rcases List.mem_cons.mp hp with hp | hp
        · rw [hp]
          have h1 := hcons.1
          unfold consistentP at h1 ⊢
          exact h1
        · exact hcons.2 p hp
    · have hcons2 : allConsistent
          { (pollCancel env true s).2 with progress :=
            { (pollCancel env true s).2.progress with currentBatch := bi + 1 } } := by
        constructor
        · have h1 := hcons.1
          unfold consistentP at h1 ⊢
          exact h1
        · exact hcons.2
      split
      · split
        · apply ih
          apply processBatch_allCons
          obtain ⟨hq1, _, _, hq4, _⟩ := checkPermM_spec env
            { (pollCancel env true s).2 with progress :=
              { (pollCancel env true s).2.progress with currentBatch := bi + 1 } }
          constructor
          · rw [hq1]
            exact hcons2.1
          · rw [hq4]
            exact hcons2.2
        · obtain ⟨hq1, _, _, hq4, _⟩ := checkPermM_spec env
            { (pollCancel env true s).2 with progress :=
              { (pollCancel env true s).2.progress with currentBatch := bi + 1 } }
          constructor
          · have h1 := hcons2.1
            unfold consistentP at h1 ⊢
            simp only [emitP, hq1]
            exact h1
          · intro p hp
            simp only [emitP] at hp
            rcases List.mem_cons.mp hp with hp | hp
            · rw [hp]
              have h1 := hcons2.1
              rw [hq1] at *
              unfold consistentP at h1 ⊢
              exact h1
            · rw [hq4] at hp
              exact hcons2.2 p hp
      · apply ih
        apply processBatch_allCons
        exact hcons2

theorem runBatches_idsInv (env : Env) (rows : List ContactRow) (cc : String)
    (bs tb : Nat) : ∀ (fuel bi : Nat) (s : ImportState),
    idsInv s → idsInv (runBatches env rows cc bs tb bi fuel s) := by
  intro fuel
  induction fuel with
  | zero =>
    intro bi s h
    simp only [runBatches]
    exact h
  | succ f ih =>
    intro bi s h
    simp only [runBatches]
    obtain ⟨hp1, hp2, _, _, _⟩ := pollCancel_spec env true s
    have hids : idsInv (pollCancel env true s).2 := by
      unfold idsInv at h ⊢
      rw [hp1, hp2]
      exact h
    split
    · unfold idsInv at hids ⊢
      simp only [emitP]
      exact hids
    · have hids2 : idsInv
          { (pollCancel env true s).2 with progress :=
            { (pollCancel env true s).2.progress with currentBatch := bi + 1 } } := by
        unfold idsInv at hids ⊢
        exact hids
      split
      · split
        · apply ih
          apply processBatch_idsInv
          obtain ⟨hq1, hq2, _, _, _⟩ := checkPermM_spec env
            { (pollCancel env true s).2 with progress :=
              { (pollCancel env true s).2.progress with currentBatch := bi + 1 } }
          unfold idsInv at hids2 ⊢
          rw [hq1, hq2]
          exact hids2
        · obtain ⟨hq1, hq2, _, _, _⟩ := checkPermM_spec env
            { (pollCancel env true s).2 with progress :=
              { (pollCancel env true s).2.progress with currentBatch := bi + 1 } }
          unfold idsInv at hids2 ⊢
          simp only [emitP]
          rw [hq1, hq2]
          exact hids2
      · apply ih
        apply processBatch_idsInv
        exact hids2

/- ## Claims C1, C10, C4 -/

theorem bulkImport_allCons (env : Env) (rows : List ContactRow)
    (countryCode : String) (batchSize : Nat) :
    allConsistent (bulkImportContacts env rows countryCode batchSize) := by
  simp only [bulkImportContacts]
  split
  · constructor
    · unfold consistentP
      simp [emitP, checkPermM]
    · intro p hp
      simp only [emitP, checkPermM] at hp
      unfold consistentP
      rcases List.mem_cons.mp hp with hp | hp
      · rw [hp]
        simp
      · rcases List.mem_cons.mp hp with hp | hp
        · rw [hp]
          simp
        · simp at hp
  · have h0 : allConsistent
        (checkPermM env
          { progress :=
              { total := rows.length, processed := 0, successful := 0, failed := 0,
                skipped := 0, updated := 0, isRunning := true, isCancelled := false,
                currentBatch := 0,
                totalBatches := (rows.length + batchSize - 1) / batchSize, errors := [] },
            addedContactIds := [], phonesAddedInSession := [], emissions := [],
            permIdx := 0, cancelIdx := 0, writeIdx := 0, obs := none }).2 := by
      constructor
      · unfold consistentP
        simp [checkPermM]
      · intro p hp
        simp [checkPermM] at hp
    have hr := runBatches_allCons env rows countryCode batchSize
      ((rows.length + batchSize - 1) / batchSize) ((rows.length + batchSize - 1) / batchSize)
      0 _ h0
    constructor
    · have h1 := hr.1
      unfold consistentP at h1 ⊢
      simp only [emitP]
      exact h1
    · intro p hp
      simp only [emitP] at hp
      rcases List.mem_cons.mp hp with hp | hp
      · rw [hp]
        have h1 := hr.1
        unfold consistentP at h1 ⊢
        exact h1
      · exact hr.2 p hp

/-- **C1** (confirmed).  Every progress snapshot emitted by
`bulkImportContacts` — for every candidate list, batch size (at least 1;
a zero batch size makes the source loop diverge), country code,
cancellation-flag history and device-store outcome sequence — satisfies
`processed = successful + failed + skipped + updated`. -/
theorem c1_progress_counts_consistent (env : Env) (rows : List ContactRow)
    (countryCode : String) (batchSize : Nat) (_hbs : 1 ≤ batchSize) :
    ((bulkImportContacts env rows countryCode batchSize).emissions.all
      (fun p => p.processed == p.successful + p.failed + p.skipped + p.updated))
      = true := by
  rw [List.all_eq_true]
  intro p hp
  have hc := (bulkImport_allCons env rows countryCode batchSize).2 p hp
  unfold consistentP at hc
  simp [hc]

/-- Witness for C1: one valid row, permission granted, successful write,
no cancellation. -/
theorem c1_witness :
    1 ≤ 1
  ∧ ((bulkImportContacts
      ⟨fun _ => true, fun _ => false, fun _ => Except.ok ("id1")⟩
      [⟨("r1"), ("A"), ("9876543210"), none, none, none, true, [], false,
        DuplicateAction.skip, none, true⟩]
      ("+91") 1).emissions.all
      (fun p => p.processed == p.successful + p.failed + p.skipped + p.updated))
      = true :=
  ⟨by decide,
   c1_progress_counts_consistent
    ⟨fun _ => true, fun _ => false, fun _ => Except.ok ("id1")⟩
    [⟨("r1"), ("A"), ("9876543210"), none, none, none, true, [], false,
      DuplicateAction.skip, none, true⟩]
    ("+91") 1 (by decide)⟩

theorem bulkImport_idsInv (env : Env) (rows : List ContactRow)
    (countryCode : String) (batchSize : Nat) :
    idsInv (bulkImportContacts env rows countryCode batchSize) := by
  simp only [bulkImportContacts]
  split
  · unfold idsInv
    simp [emitP, checkPermM]
  · have h0 : idsInv
        (checkPermM env
          { progress :=
              { total := rows.length, processed := 0, successful := 0, failed := 0,
                skipped := 0, updated := 0, isRunning := true, isCancelled := false,
                currentBatch := 0,
                totalBatches := (rows.length + batchSize - 1) / batchSize, errors := [] },
            addedContactIds := [], phonesAddedInSession := [], emissions := [],
            permIdx := 0, cancelIdx := 0, writeIdx := 0, obs := none }).2 := by
      unfold idsInv
      simp [checkPermM]
    have hr := runBatches_idsInv env rows countryCode batchSize
      ((rows.length + batchSize - 1) / batchSize) ((rows.length + batchSize - 1) / batchSize)
      0 _ h0
    unfold idsInv at hr ⊢
    simp only [emitP]
    exact hr

/-- **C10** (confirmed).  Whenever `bulkImportContacts` returns — run
completed, cancelled, or permission-denied — the number of recorded added
contact ids equals the final `successful` count: each successful add
write records exactly one id and update writes record none. -/
theorem c10_added_ids_match_successful (env : Env) (rows : List ContactRow)
    (countryCode : String) (batchSize : Nat) (_hbs : 1 ≤ batchSize) :
    (bulkImportContacts env rows countryCode batchSize).addedContactIds.length
      = (bulkImportContacts env rows countryCode batchSize).progress.successful :=
  bulkImport_idsInv env rows countryCode batchSize

/-- Witness for C10: a two-row run with one failing write. -/
theorem c10_witness :
    1 ≤ 1
  ∧ (bulkImportContacts
      ⟨fun _ => true, fun _ => false,
       fun i => if i = 0 then Except.ok ("id1") else Except.error ("boom")⟩
      [⟨("r1"), ("A"), ("9876543210"), none, none, none, true, [], false,
        DuplicateAction.skip, none, true⟩,
       ⟨("r2"), ("B"), ("9876543211"), none, none, none, true, [], false,
        DuplicateAction.skip, none, true⟩]
      ("+91") 1).addedContactIds.length
      = (bulkImportContacts
      ⟨fun _ => true, fun _ => false,
       fun i => if i = 0 then Except.ok ("id1") else Except.error ("boom")⟩
      [⟨("r1"), ("A"), ("9876543210"), none, none, none, true, [], false,
        DuplicateAction.skip, none, true⟩,
       ⟨("r2"), ("B"), ("9876543211"), none, none, none, true, [], false,
        DuplicateAction.skip, none, true⟩]
      ("+91") 1).progress.successful :=
  ⟨by decide,
   c10_added_ids_match_successful
    ⟨fun _ => true, fun _ => false,
     fun i => if i = 0 then Except.ok ("id1") else Except.error ("boom")⟩
    [⟨("r1"), ("A"), ("9876543210"), none, none, none, true, [], false,
      DuplicateAction.skip, none, true⟩,
     ⟨("r2"), ("B"), ("9876543211"), none, none, none, true, [], false,
      DuplicateAction.skip, none, true⟩]
    ("+91") 1 (by decide)⟩

/-- **C4** (corrected): when the pre-flight permission check fails, the
source emits *two* progress updates (one recording the permission error
with zero counts, a second after marking every row failed), not "exactly
one" as the claim states. -/
theorem c4_counterexample :
    (bulkImportContacts
      ⟨fun _ => false, fun _ => false, fun _ => Except.error ("e")⟩
      [⟨("r1"), ("A"), ("9876543210"), none, none, none, true, [], false,
        DuplicateAction.skip, none, true⟩]
      ("+91") 100).emissions.length = 2 := by
  decide

/-- **C4** (amended).  If the pre-flight permission check reports not
granted, `bulkImportContacts` performs no device write (no write-oracle
outcome is consumed and no id is recorded), marks every row as failed
(`failed = processed = rows.length`, the other counters zero), records
the permission error, ends the run not running, and emits exactly *two*
progress updates. -/
theorem c4_permission_denied_behavior (env : Env) (rows : List ContactRow)
    (countryCode : String) (batchSize : Nat) (hperm : env.perm 0 = false) :
    (bulkImportContacts env rows countryCode batchSize).writeIdx = 0
  ∧ (bulkImportContacts env rows countryCode batchSize).addedContactIds = []
  ∧ (bulkImportContacts env rows countryCode batchSize).progress.failed = rows.length
  ∧ (bulkImportContacts env rows countryCode batchSize).progress.processed = rows.length
  ∧ (bulkImportContacts env rows countryCode batchSize).progress.successful = 0
  ∧ (bulkImportContacts env rows countryCode batchSize).progress.skipped = 0
  ∧ (bulkImportContacts env rows countryCode batchSize).progress.updated = 0
  ∧ (bulkImportContacts env rows countryCode batchSize).progress.isRunning = false
  ∧ (bulkImportContacts env rows countryCode batchSize).progress.errors = [permDeniedError]
  ∧ (bulkImportContacts env rows countryCode batchSize).emissions.length = 2 := by
  simp [bulkImportContacts, checkPermM, hperm, emitP]

/-- Witness for C4 at a concrete permission-denied run. -/
theorem c4_witness :
    (bulkImportContacts
      ⟨fun _ => false, fun _ => false, fun _ => Except.error ("e")⟩
      [⟨("r1"), ("A"), ("9876543210"), none, none, none, true, [], false,
        DuplicateAction.skip, none, true⟩]
      ("+91") 100).writeIdx = 0
  ∧ (bulkImportContacts
      ⟨fun _ => false, fun _ => false, fun _ => Except.error ("e")⟩
      [⟨("r1"), ("A"), ("9876543210"), none, none, none, true, [], false,
        DuplicateAction.skip, none, true⟩]
      ("+91") 100).progress.failed
      = ([⟨("r1"), ("A"), ("9876543210"), none, none, none, true, [], false,
          DuplicateAction.skip, none, true⟩] : List ContactRow).length := by
  have h := c4_permission_denied_behavior
    ⟨fun _ => false, fun _ => false, fun _ => Except.error ("e")⟩
    [⟨("r1"), ("A"), ("9876543210"), none, none, none, true, [], false,
      DuplicateAction.skip, none, true⟩]
    ("+91") 100 rfl
  exact ⟨h.1, h.2.2.1⟩

/- ## Claim C3: cancellation freezes the counters -/

theorem cancel_mono {env : Env} (hm : monotoneCancel env) :
    ∀ {i j : Nat}, i ≤ j → env.cancel i = true → env.cancel j = true := by
  intro i j hij h
  induction j, hij using Nat.le_induction with
  | base => exact h
  | succ n _ ih => exact hm n ih

theorem caseA_perm {env : Env} {tb : Nat} {X : ImportState}
    (hA : caseA env tb X) : caseA env tb (checkPermM env X).2 := by
  obtain ⟨hq1, _, _, _, hq5, _, hq7, _⟩ := checkPermM_spec env X
  refine ⟨?_, ?_, ?_, ?_⟩
  · rw [hq7]
    exact hA.1
  · intro i hi
    rw [hq5] at hi
    exact hA.2.1 i hi
  · rw [hq1]
    exact hA.2.2.1
  · rw [hq1]
    exact hA.2.2.2

theorem processBatch_cases (env : Env) (batch : List ContactRow) (start : Nat)
    (cc : String) (tb B : Nat) :
    ∀ (l : List ContactRow) (s : ImportState),
    caseA env tb s → s.progress.currentBatch = B →
    (caseA env tb (processBatch env batch start cc l s)
      ∧ (processBatch env batch start cc l s).progress.currentBatch = B)
    ∨ caseB env tb B (processBatch env batch start cc l s) := by
  intro l
  induction l with
  | nil =>
    intro s hA hB
    exact Or.inl ⟨hA, hB⟩
  | cons row rest ih =>
    intro s hA hB
    simp only [processBatch]
    obtain ⟨hp1, _, _, _, _, _, hp7, hp8⟩ := pollCancel_spec env false s
    cases hc : env.cancel s.cancelIdx with
    | true =>
      have hps : (pollCancel env false s).1 = true := by
        rw [hp8]
        exact hc
      rw [if_pos hps]
      right
      have hobs : (pollCancel env false s).2.obs = some (s.progress, false) := by
        simp [pollCancel, hc, hA.1]
      refine ⟨s.progress, hobs, ?_, ⟨s.cancelIdx, ?_, hc⟩, ?_, hB, hA.2.2.2, ?_⟩
      · rw [hp1]
        exact ⟨rfl, rfl, rfl, rfl, rfl⟩
      · rw [hp7]
        omega
      · rw [hp1]
        exact hA.2.2.1
      · rw [hp1]
        exact hA.2.2.2
    | false =>
      have hps : ¬((pollCancel env false s).1 = true) := by
        rw [hp8]
        simp [hc]
      rw [if_neg hps]
      obtain ⟨hr1, hr2, _, hr4, _, hr6, hr7, _, _, _, _, _⟩ :=
        processRow_spec env row (Int.ofNat (start + idxOfRow row batch)) cc
          (pollCancel env false s).2
      have hobs0 : (pollCancel env false s).2.obs = s.obs :=
        pollCancel_obs_of_false hc
      refine ih _ ⟨?_, ?_, ?_, ?_⟩ ?_
      · rw [hr1, hobs0]
        exact hA.1
      · intro i hi
        rw [hr2, hp7] at hi
        rcases Nat.lt_or_ge i s.cancelIdx with h | h
        · exact hA.2.1 i h
        · have : i = s.cancelIdx := by omega
          rw [this]
          exact hc
      · rw [hr4, hp1]
        exact hA.2.2.1
      · rw [hr7, hp1]
        exact hA.2.2.2
      · rw [hr6, hp1]
        exact hB

theorem runBatches_obs_freeze (env : Env) (rows : List ContactRow) (cc : String)
    (bs tb : Nat) (hm : monotoneCancel env) :
    ∀ (fuel bi : Nat) (s : ImportState), bi + fuel = tb →
    (caseA env tb s ∨ caseB env tb bi s) →
    ∀ (snap : ImportProgress) (atTop : Bool),
      (runBatches env rows cc bs tb bi fuel s).obs = some (snap, atTop) →
      countersEq (runBatches env rows cc bs tb bi fuel s).progress snap
      ∧ (runBatches env rows cc bs tb bi fuel s).progress.isCancelled
          = (atTop || decide (snap.currentBatch < tb))
      ∧ snap.totalBatches = tb := by
  intro fuel
  induction fuel with
  | zero =>
    intro bi s hfb hAB snap atTop hobs
    simp only [runBatches] at hobs ⊢
    rcases hAB with hA | hB
    · rw [hA.1] at hobs
      exact absurd hobs (by simp)
    · obtain ⟨snap0, hB1, hB2, _, hB4, hB5, hB6, _⟩ := hB
      rw [hB1] at hobs
      simp only [Option.some.injEq, Prod.mk.injEq] at hobs
      obtain ⟨h1, h2⟩ := hobs
      subst h1
      refine ⟨hB2, ?_, hB6⟩
      rw [hB4, ← h2, hB5]
      have : bi = tb := by omega
      rw [this]
      simp
  | succ f ih =>
    intro bi s hfb hAB snap atTop hobs
    simp only [runBatches] at hobs ⊢
    obtain ⟨hp1, _, _, _, _, _, hp7, hp8⟩ := pollCancel_spec env true s
    split at hobs
    · rename_i hps
      rw [if_pos hps]
      have hc : env.cancel s.cancelIdx = true := by
        rw [← hp8]
        exact hps
      rcases hAB with hA | hB
      · -- observation happens at this batch boundary
        have hobs2 : (pollCancel env true s).2.obs = some (s.progress, true) := by
          simp [pollCancel, hc, hA.1]
        simp only [emitP] at hobs ⊢
        rw [hobs2] at hobs
        simp only [Option.some.injEq, Prod.mk.injEq] at hobs
        obtain ⟨h1, h2⟩ := hobs
        refine ⟨?_, ?_, ?_⟩
        · rw [← h1, hp1]
          exact ⟨rfl, rfl, rfl, rfl, rfl⟩
        · rw [← h2]
          simp
        · rw [← h1]
          exact hA.2.2.2
      · -- already observed at a row poll earlier
        obtain ⟨snap0, hB1, hB2, _, _, hB5, hB6, _⟩ := hB
        have hobs2 : (pollCancel env true s).2.obs = s.obs := by
          simp [pollCancel, hB1]
        simp only [emitP] at hobs ⊢
        rw [hobs2, hB1] at hobs
        simp only [Option.some.injEq, Prod.mk.injEq] at hobs
        obtain ⟨h1, h2⟩ := hobs
        subst h1
        refine ⟨?_, ?_, hB6⟩
        · have := hB2
          rw [← hp1] at this
          exact this
        · rw [← h2]
          have hlt : snap0.currentBatch < tb := by
            rw [hB5]
            omega
          simp [hlt]
    · rename_i hps
      rw [if_neg hps]
      have hc : env.cancel s.cancelIdx = false := by
        rw [← hp8]
        simpa using hps
      rcases hAB with hA | hB
      · have hA' : caseA env tb
            { (pollCancel env true s).2 with progress :=
              { (pollCancel env true s).2.progress with currentBatch := bi + 1 } } := by
          refine ⟨?_, ?_, ?_, ?_⟩
          · exact pollCancel_obs_of_false hc
            |>.trans hA.1
          · intro i hi
            simp only at hi
            rw [hp7] at hi
            rcases Nat.lt_or_ge i s.cancelIdx with h | h
            · exact hA.2.1 i h
            · have : i = s.cancelIdx := by omega
              rw [this]
              exact hc
          · show (pollCancel env true s).2.progress.isCancelled = false
            rw [hp1]
            exact hA.2.2.1
          · show (pollCancel env true s).2.progress.totalBatches = tb
            rw [hp1]
            exact hA.2.2.2
        split at hobs
        · rename_i hb5
          rw [if_pos hb5]
          split at hobs
          · rename_i hq
            rw [if_pos hq]
            rcases processBatch_cases env _ _ cc tb (bi + 1) _ _
              (caseA_perm hA') (by rw [(checkPermM_spec env _).1])
              with ⟨hA2, _⟩ | hB2
            · exact ih (bi + 1) _ (by omega) (Or.inl hA2) snap atTop hobs
            · exact ih (bi + 1) _ (by omega) (Or.inr hB2) snap atTop hobs
          · rename_i hq
            -- permission revoked mid-run: nothing was ever observed
            exfalso
            simp only [emitP] at hobs
            rw [(checkPermM_spec env _).2.2.2.2.2.2.1] at hobs
            rw [hA'.1] at hobs
            exact absurd hobs (by simp)
        · rename_i hb5
          rw [if_neg hb5]
          rcases processBatch_cases env _ _ cc tb (bi + 1) _ _ hA' rfl
            with ⟨hA2, _⟩ | hB2
          · exact ih (bi + 1) _ (by omega) (Or.inl hA2) snap atTop hobs
          · exact ih (bi + 1) _ (by omega) (Or.inr hB2) snap atTop hobs
      · exfalso
        obtain ⟨_, _, _, ⟨i, hi, hci⟩, _⟩ := hB
        exact absurd (cancel_mono hm (Nat.le_of_lt_succ (Nat.lt_succ_of_lt hi)) hci)
          (by simp [hc])

/-- **C3** (corrected): a monotone (never-cleared) cancellation flag that
becomes set between the first and second row of the final batch is
observed by the inner per-row check — which breaks out of the batch — yet
the run ends with `isCancelled = false`: the inner `break` at the row
check never sets `isCancelled`, and with no further batch iteration the
batch-top branch that would set it never runs.  The counters do stay
frozen at the observation snapshot. -/
theorem c3_counterexample :
    monotoneCancel ⟨fun _ => true, fun i => decide (2 ≤ i), fun _ => Except.ok ("id1")⟩
  ∧ (bulkImportContacts
      ⟨fun _ => true, fun i => decide (2 ≤ i), fun _ => Except.ok ("id1")⟩
      [⟨("r1"), ("A"), ("9876543210"), none, none, none, true, [], false,
        DuplicateAction.skip, none, true⟩,
       ⟨("r2"), ("B"), ("9876543211"), none, none, none, true, [], false,
        DuplicateAction.skip, none, true⟩]
      ("+91") 100).obs
      = some (⟨2, 1, 1, 0, 0, 0, true, false, 1, 1, []⟩, false)
  ∧ (bulkImportContacts
      ⟨fun _ => true, fun i => decide (2 ≤ i), fun _ => Except.ok ("id1")⟩
      [⟨("r1"), ("A"), ("9876543210"), none, none, none, true, [], false,
        DuplicateAction.skip, none, true⟩,
       ⟨("r2"), ("B"), ("9876543211"), none, none, none, true, [], false,
        DuplicateAction.skip, none, true⟩]
      ("+91") 100).progress.isCancelled = false := by
  refine ⟨?_, by decide, by decide⟩
  intro i hi
  simp only [decide_eq_true_eq] at hi ⊢
  omega

/-- **C3** (amended).  For every run under a monotone cancellation flag
in which a cancellation check reads `true` (ghost observation
`some (snap, atTop)`, where `snap` is the progress at that moment and
`atTop` tells whether it was a batch-boundary check), the final
`successful`/`failed`/`skipped`/`updated`/`processed` counters all equal
their values in `snap` — no row after the observation point contributes —
but the final `isCancelled` is `true` only if the observation was at a
batch boundary or a later batch iteration remained; a row-level
observation inside the last batch leaves `isCancelled = false`. -/
theorem c3_cancellation_freezes_counters (env : Env) (rows : List ContactRow)
    (countryCode : String) (batchSize : Nat) (_hbs : 1 ≤ batchSize)
    (hm : monotoneCancel env) (snap : ImportProgress) (atTop : Bool)
    (hobs : (bulkImportContacts env rows countryCode batchSize).obs
      = some (snap, atTop)) :
    countersEq (bulkImportContacts env rows countryCode batchSize).progress snap
  ∧ (bulkImportContacts env rows countryCode batchSize).progress.isCancelled
      = (atTop || decide (snap.currentBatch < snap.totalBatches)) := by
  simp only [bulkImportContacts] at hobs ⊢
  split at hobs
  · rename_i h
    rw [if_pos h]
    exfalso
    simp [emitP, checkPermM] at hobs
  · rename_i h
    rw [if_neg h]
    have h0 : caseA env ((rows.length + batchSize - 1) / batchSize)
        { progress :=
            { total := rows.length, processed := 0, successful := 0, failed := 0,
              skipped := 0, updated := 0, isRunning := true, isCancelled := false,
              currentBatch := 0,
              totalBatches := (rows.length + batchSize - 1) / batchSize, errors := [] },
          addedContactIds := [], phonesAddedInSession := [], emissions := [],
          permIdx := 0, cancelIdx := 0, writeIdx := 0, obs := none } := by
      refine ⟨rfl, ?_, rfl, rfl⟩
      intro i hi
      exact absurd hi (Nat.not_lt_zero i)
    have h1 := caseA_perm h0
    simp only [emitP] at hobs ⊢
    obtain ⟨hc1, hc2, hc3⟩ := runBatches_obs_freeze env rows countryCode batchSize
      ((rows.length + batchSize - 1) / batchSize) hm
      ((rows.length + batchSize - 1) / batchSize) 0 _ (by omega) (Or.inl h1)
      snap atTop hobs
    refine ⟨hc1, ?_⟩
    rw [hc3]
    exact hc2

/-- Witness for C3: the counterexample's run, whose observation snapshot
is frozen into the final counters. -/
theorem c3_witness :
    countersEq (bulkImportContacts
      ⟨fun _ => true, fun i => decide (2 ≤ i), fun _ => Except.ok ("id1")⟩
      [⟨("r1"), ("A"), ("9876543210"), none, none, none, true, [], false,
        DuplicateAction.skip, none, true⟩,
       ⟨("r2"), ("B"), ("9876543211"), none, none, none, true, [], false,
        DuplicateAction.skip, none, true⟩]
      ("+91") 100).progress
      ⟨2, 1, 1, 0, 0, 0, true, false, 1, 1, []⟩
  ∧ (bulkImportContacts
      ⟨fun _ => true, fun i => decide (2 ≤ i), fun _ => Except.ok ("id1")⟩
      [⟨("r1"), ("A"), ("9876543210"), none, none, none, true, [], false,
        DuplicateAction.skip, none, true⟩,
       ⟨("r2"), ("B"), ("9876543211"), none, none, none, true, [], false,
        DuplicateAction.skip, none, true⟩]
      ("+91") 100).progress.isCancelled
      = (false || decide ((⟨2, 1, 1, 0, 0, 0, true, false, 1, 1, []⟩ :
            ImportProgress).currentBatch
          < (⟨2, 1, 1, 0, 0, 0, true, false, 1, 1, []⟩ :
            ImportProgress).totalBatches)) :=
  c3_cancellation_freezes_counters
    ⟨fun _ => true, fun i => decide (2 ≤ i), fun _ => Except.ok ("id1")⟩
    [⟨("r1"), ("A"), ("9876543210"), none, none, none, true, [], false,
      DuplicateAction.skip, none, true⟩,
     ⟨("r2"), ("B"), ("9876543211"), none, none, none, true, [], false,
      DuplicateAction.skip, none, true⟩]
    ("+91") 100 (by decide)
    (by
      intro i hi
      simp only [decide_eq_true_eq] at hi ⊢
      omega)
    ⟨2, 1, 1, 0, 0, 0, true, false, 1, 1, []⟩ false (by decide)
